import Mathlib

/-!
The program `stime`: conversion of time values between textual formats.

A shallow embedding of `stime.c` and the properties of its format registry,
its `raw` format, its usage word-wrap and its value-processing loop.

C strings are lists of characters (`CString`), without the terminating NUL.
The C library routines the program calls (`isspace`, `strcasecmp`, `strtod`,
`snprintf` with `%.0lf` and `%.3lf`) are modelled from their ISO C / POSIX
description, in the "C" locale.  The Slurm time API and the calendar routines
of libc are black boxes, collected in the structure `Externals`.
-/

namespace Stime

/-- A NUL-terminated C string, as the list of the characters before the NUL. -/
abbrev CString := List Char

/-! ## ctype.h and strings.h -/

/-- The function `isspace` of the "C" locale: space, `\t`, `\n`, `\v`, `\f`, `\r`. -/
def isspace (c : Char) : Bool :=
  c = ' ' || c = '\t' || c = '\n' || c = '\x0b' || c = '\x0c' || c = '\r'

/-- The function `isdigit`. -/
def isdigit (c : Char) : Bool := '0' ≤ c && c ≤ '9'

/-- The function `isxdigit`. -/
def isxdigit (c : Char) : Bool :=
  isdigit c || ('a' ≤ c && c ≤ 'f') || ('A' ≤ c && c ≤ 'F')

/-- The function `isalnum` of the "C" locale. -/
def isalnum (c : Char) : Bool :=
  isdigit c || ('a' ≤ c && c ≤ 'z') || ('A' ≤ c && c ≤ 'Z')

/-- The function `tolower` of the "C" locale. -/
def tolower : Char → Char
  | 'A' => 'a' | 'B' => 'b' | 'C' => 'c' | 'D' => 'd' | 'E' => 'e' | 'F' => 'f' | 'G' => 'g'
  | 'H' => 'h' | 'I' => 'i' | 'J' => 'j' | 'K' => 'k' | 'L' => 'l' | 'M' => 'm' | 'N' => 'n'
  | 'O' => 'o' | 'P' => 'p' | 'Q' => 'q' | 'R' => 'r' | 'S' => 's' | 'T' => 't' | 'U' => 'u'
  | 'V' => 'v' | 'W' => 'w' | 'X' => 'x' | 'Y' => 'y' | 'Z' => 'z'
  | c => c

/-- The C string an array of characters holds: the characters before the
first NUL. -/
def cstr (s : List Char) : CString := s.takeWhile (fun c => c ≠ '\x00')

/-- The function `strcasecmp`: the difference of the first pair of characters
that differ after `tolower`, the end of a string counting as NUL; 0 when a
NUL is reached in both. -/
def strcasecmp : CString → CString → Int
  | [], [] => 0
  | [], b :: _ => 0 - ((tolower b).toNat : Int)
  | a :: _, [] => ((tolower a).toNat : Int)
  | a :: as, b :: bs =>
    if tolower a = tolower b then
      if a = '\x00' then 0 else strcasecmp as bs
    else ((tolower a).toNat : Int) - ((tolower b).toNat : Int)

/-- The function `strcmp`, with the same conventions as `strcasecmp`. -/
def strcmp : CString → CString → Int
  | [], [] => 0
  | [], b :: _ => 0 - (b.toNat : Int)
  | a :: _, [] => (a.toNat : Int)
  | a :: as, b :: bs =>
    if a = b then
      if a = '\x00' then 0 else strcmp as bs
    else (a.toNat : Int) - (b.toNat : Int)

/-! ## The type `double` -/

/-- An IEEE-754 binary64 value.  A finite value is `± num / 2 ^ k`, kept in
lowest terms (`k = 0` or `num` odd), so that equal values are equal terms,
the two zeros apart. -/
inductive Double where
  | fin (neg : Bool) (num : Nat) (k : Nat)
  | inf (neg : Bool)
  | nan (neg : Bool)
  deriving DecidableEq, Repr

/-- Lowest terms of `m / 2 ^ k`. -/
def reduceDyadic : Nat → Nat → Nat × Nat
  | m, 0 => (m, 0)
  | m, k + 1 => if m % 2 = 0 then reduceDyadic (m / 2) k else (m, k + 1)

/-- Whether `2 ^ l ≤ p / q`, for an integer `l` of either sign. -/
def pow2Le (p q : Nat) (l : Int) : Bool :=
  if 0 ≤ l then decide (q * 2 ^ l.toNat ≤ p) else decide (q ≤ p * 2 ^ (-l).toNat)

/-- The number of binary digits of `n`, the first argument bounding the
recursion. -/
def bitLength : Nat → Nat → Nat
  | 0, _ => 0
  | f + 1, n => if n = 0 then 0 else bitLength f (n / 2) + 1

/-- The integer `⌊log₂ (p / q)⌋`, for positive `p` and `q`. -/
def floorLog2 (p q : Nat) : Int :=
  let l : Int := (bitLength p p : Int) - (bitLength q q : Int)
  if pow2Le p q l then l else l - 1

/-- Round half to even of `P / Q`. -/
def roundHalfEven (P Q : Nat) : Nat :=
  let m := P / Q
  let r := P % Q
  if Q < 2 * r || (2 * r = Q && m % 2 = 1) then m + 1 else m

/-- The binary64 value nearest to `± p / q` (`q > 0`), ties to even: 53 bits
of significand, gradual underflow below `2 ^ (-1022)`, infinity from
`2 ^ 1024 - 2 ^ 970` on. -/
def roundToDouble (neg : Bool) (p q : Nat) : Double :=
  if p = 0 then Double.fin neg 0 0
  else
    let g := Nat.gcd p q
    let p := p / g
    let q := q / g
    let e : Int := max (floorLog2 p q - 52) (-1074)
    let m := if 0 ≤ e then roundHalfEven p (q * 2 ^ e.toNat)
             else roundHalfEven (p * 2 ^ (-e).toNat) q
    if 971 < e || (e = 971 && 2 ^ 53 ≤ m) then Double.inf neg
    else if 0 ≤ e then Double.fin neg (m * 2 ^ e.toNat) 0
    else
      let r := reduceDyadic m (-e).toNat
      Double.fin neg r.1 r.2

/-- The conversion `(double) i` of an integer. -/
def Double.ofInt (i : Int) : Double := roundToDouble (decide (i < 0)) i.natAbs 1

/-- The conversion `(time_t) d`, with a 64-bit `time_t`: truncation toward
zero.  C leaves the conversion of a NaN, an infinity or a value out of range
undefined; x86-64 yields `-2 ^ 63`, taken here. -/
def Double.toTimeT : Double → Int
  | Double.fin neg num k =>
    let t : Int := if neg then -((num / 2 ^ k : Nat) : Int) else ((num / 2 ^ k : Nat) : Int)
    if -(2 ^ 63 : Int) ≤ t ∧ t < 2 ^ 63 then t else -(2 ^ 63 : Int)
  | _ => -(2 ^ 63 : Int)

/-! ## Decimal text -/

/-- The value of a decimal or hexadecimal digit. -/
def digitVal (c : Char) : Nat :=
  if isdigit c then c.toNat - 48
  else if 'a' ≤ c && c ≤ 'f' then c.toNat - 87
  else c.toNat - 55

/-- The number a string of digits denotes in base `b`, continuing from `acc`. -/
def digitsValue (b : Nat) : Nat → List Char → Nat
  | acc, [] => acc
  | acc, c :: cs => digitsValue b (acc * b + digitVal c) cs

/-- The decimal text of a natural number. -/
def decimal (n : Nat) : CString := Nat.toDigits 10 n

/-- The last `w` decimal digits of `x`, leading zeros included. -/
def fixedDigits : Nat → Nat → CString
  | 0, _ => []
  | w + 1, x => fixedDigits w (x / 10) ++ [Nat.digitChar (x % 10)]

/-! ## stdlib.h: strtod -/

/-- The result of a scan: the value and the number of characters consumed. -/
abbrev Scan := Option (Double × Nat)

/-- An optional exponent part: the marker, an optional sign and at least one
decimal digit.  The result is the exponent and the characters consumed, `(0, 0)`
when there is no well-formed exponent part. -/
def scanExponent (marker : Char) (s : CString) : Int × Nat :=
  match s with
  | [] => (0, 0)
  | c :: t =>
    if tolower c = marker then
      match t with
      | '-' :: u =>
        let ds := u.takeWhile isdigit
        if ds = [] then (0, 0) else (-(digitsValue 10 0 ds : Int), 2 + ds.length)
      | '+' :: u =>
        let ds := u.takeWhile isdigit
        if ds = [] then (0, 0) else ((digitsValue 10 0 ds : Int), 2 + ds.length)
      | _ =>
        let ds := t.takeWhile isdigit
        if ds = [] then (0, 0) else ((digitsValue 10 0 ds : Int), 1 + ds.length)
    else (0, 0)

/-- The value `± m * base ^ x` as a double, `base` being 10 or 2. -/
def scaled (neg : Bool) (m : Nat) (base : Nat) (x : Int) : Double :=
  if 0 ≤ x then roundToDouble neg (m * base ^ x.toNat) 1
  else roundToDouble neg m (base ^ (-x).toNat)

/-- A decimal floating constant: digits with an optional radix point (at least
one digit in all) and an optional exponent part. -/
def scanDecimal (neg : Bool) (s : CString) : Scan :=
  let ip := s.takeWhile isdigit
  let r := s.dropWhile isdigit
  let fp := match r with
    | '.' :: t => t.takeWhile isdigit
    | _ => []
  let dot := match r with
    | '.' :: _ => 1
    | _ => 0
  if ip = [] ∧ fp = [] then none
  else
    let r2 := r.drop (dot + fp.length)
    let ex := scanExponent 'e' r2
    some (scaled neg (digitsValue 10 0 (ip ++ fp)) 10 (ex.1 - (fp.length : Int)),
          ip.length + dot + fp.length + ex.2)

/-- A hexadecimal floating constant: `0x`, hexadecimal digits with an optional
radix point (at least one digit in all) and an optional binary exponent. -/
def scanHex (neg : Bool) (s : CString) : Scan :=
  match s with
  | '0' :: x :: s1 =>
    if tolower x = 'x' then
      let ip := s1.takeWhile isxdigit
      let r := s1.dropWhile isxdigit
      let fp := match r with
        | '.' :: t => t.takeWhile isxdigit
        | _ => []
      let dot := match r with
        | '.' :: _ => 1
        | _ => 0
      if ip = [] ∧ fp = [] then none
      else
        let r2 := r.drop (dot + fp.length)
        let ex := scanExponent 'p' r2
        some (scaled neg (digitsValue 16 0 (ip ++ fp)) 2 (ex.1 - 4 * (fp.length : Int)),
              2 + ip.length + dot + fp.length + ex.2)
    else none
  | _ => none

/-- The texts `INF`, `INFINITY`, `NAN` and `NAN(n-char-sequence)`, in any
letter case. -/
def scanInfNan (neg : Bool) (s : CString) : Scan :=
  let l := s.map tolower
  if l.take 8 = ['i', 'n', 'f', 'i', 'n', 'i', 't', 'y'] then some (Double.inf neg, 8)
  else if l.take 3 = ['i', 'n', 'f'] then some (Double.inf neg, 3)
  else if l.take 3 = ['n', 'a', 'n'] then
    match s.drop 3 with
    | '(' :: t =>
      let body := t.takeWhile (fun c => isalnum c || c = '_')
      match t.drop body.length with
      | ')' :: _ => some (Double.nan neg, 3 + 1 + body.length + 1)
      | _ => some (Double.nan neg, 3)
    | _ => some (Double.nan neg, 3)
  else none

/-- The function `strtod`: the value and `end - nptr`, the number of
characters consumed; that number is 0, and the value zero, when no conversion
is performed.  White space is skipped, a sign is read, then the longest of the
forms above. -/
def strtod (s : CString) : Double × Nat :=
  let ws := (s.takeWhile isspace).length
  let s1 := s.dropWhile isspace
  let neg := match s1 with
    | '-' :: _ => true
    | _ => false
  let sg := match s1 with
    | '-' :: _ => 1
    | '+' :: _ => 1
    | _ => 0
  let s2 := s1.drop sg
  match (scanHex neg s2).orElse (fun _ => (scanDecimal neg s2).orElse (fun _ => scanInfNan neg s2)) with
  | some (v, k) => (v, ws + sg + k)
  | none => (Double.fin false 0 0, 0)

/-! ## stdio.h: the conversions %.0lf and %.3lf -/

/-- The text `printf` produces for a double under `%.<prec>lf`: the exact
value rounded to `prec` decimals, ties to even. -/
def formatFixed (prec : Nat) : Double → CString
  | Double.nan neg => (if neg then ['-'] else []) ++ ['n', 'a', 'n']
  | Double.inf neg => (if neg then ['-'] else []) ++ ['i', 'n', 'f']
  | Double.fin neg num k =>
    let i := roundHalfEven (num * 10 ^ prec) (2 ^ k)
    (if neg then ['-'] else []) ++ decimal (i / 10 ^ prec) ++
      (if prec = 0 then [] else '.' :: fixedDigits prec (i % 10 ^ prec))

/-- The function `snprintf(buf, size, fmt, d)` for `fmt` one of `%.0lf` and
`%.3lf`: the return value, which is the length of the complete text, and the
string left in the buffer, which is the first `size - 1` characters of it. -/
def snprintf (size : Nat) (prec : Nat) (d : Double) : Nat × CString :=
  let text := formatFixed prec d
  (text.length, text.take (size - 1))

/-! ## The program: globals, events, external collaborators -/

/-- The global mode flags of `stime.c`. -/
structure Globals where
  is_duration_mode : Bool
  is_debug : Bool
  is_real_output : Bool
  deriving DecidableEq, Repr

/-- The type `struct tm`. -/
structure tm where
  tm_sec : Int
  tm_min : Int
  tm_hour : Int
  tm_mday : Int
  tm_mon : Int
  tm_year : Int
  tm_wday : Int
  tm_yday : Int
  tm_isdst : Int
  deriving DecidableEq, Repr

/-- What a run does, in order.  Messages are kept in structured form: the
constructor is the format string, the fields are its arguments (the `errno`
argument of the error messages is left out).  `call_parse` and `call_unparse`
record the calls of a format's callbacks and print nothing. -/
inductive Event where
  /-- The text of `usage`, on stdout. -/
  | usage
  /-- The line `DEBUG:  parsed to %lf seconds`, on stdout. -/
  | debug_parsed (seconds : Double)
  /-- The line `DEBUG: strptime() => ...`, on stdout. -/
  | debug_strptime (bits : tm)
  /-- The line `DEBUG:  localtime_r() => ...`, on stdout. -/
  | debug_localtime_r (bits : tm)
  /-- The converted value and a newline, on stdout. -/
  | printed (output : CString)
  /-- The message `ERROR:  invalid 'from' format: %s`, on stderr. -/
  | err_invalid_from (optarg : Option CString)
  /-- The message `ERROR:  invalid 'to' format: %s`, on stderr. -/
  | err_invalid_to (optarg : Option CString)
  /-- The message `ERROR:  cannot use stdin ('-') for multiple <value> arguments`. -/
  | err_multiple_stdin
  /-- The message `ERROR:  unable to unparse %.3lf to format %s (%d)`. -/
  | err_unparse (seconds : Double) (to_format : CString)
  /-- The message `ERROR:  unable to parse %s from format %s (%d)`. -/
  | err_parse (value : CString) (from_format : CString)
  /-- The message `ERROR:  libc format cannot parse durations`. -/
  | err_libc_parse_durations
  /-- The message `ERROR:  libc format cannot unparse durations`. -/
  | err_libc_unparse_durations
  /-- The call `freopen("/dev/null", "w", stderr)`. -/
  | freopen_stderr
  /-- A call of the `parse_fn` of the format `format_id`. -/
  | call_parse (format_id : CString) (value : CString)
  /-- A call of the `unparse_fn` of the format `format_id`. -/
  | call_unparse (format_id : CString) (seconds : Double)
  /-- A null `format_t` pointer is dereferenced. -/
  | null_dereference
  deriving DecidableEq, Repr

/-- The routines of libslurm and the calendar routines of libc, which the
program consumes as black boxes. -/
structure Externals where
  /-- The function `slurm_time_str2secs`, returning an `int`. -/
  slurm_time_str2secs : CString → Int
  /-- The function `slurm_parse_time(s, 0)`. -/
  slurm_parse_time : CString → Int
  /-- The string `slurm_secs2time_str(t, buf, len)` leaves in `buf`. -/
  slurm_secs2time_str : Int → Nat → CString
  /-- The string `slurm_make_time_str(&t, buf, len)` leaves in `buf`. -/
  slurm_make_time_str : Int → Nat → CString
  /-- The call `strptime(s, "%c", &bits)` on zeroed `bits`: `none` for NULL. -/
  strptime_c : CString → Option tm
  /-- The return value of `mktime`. -/
  mktime : tm → Int
  /-- The call `localtime_r(&t, &bits)`: `none` for NULL. -/
  localtime_r : Int → Option tm
  /-- The call `strftime(buf, len, "%c", &bits)`: its return value and the
  string left in `buf`. -/
  strftime_c : Nat → tm → Nat × CString

/-- The constant `NO_VAL` of `slurm.h`. -/
def NO_VAL : Int := 0xfffffffe

/-- The constant `INFINITE` of `slurm.h`. -/
def INFINITE : Int := 0xffffffff

/-- The constant `EINVAL` of `errno.h`. -/
def EINVAL : Int := 22

/-! ## The formats -/

/-- The type `format_t`.  A parse callback yields what it prints and the
seconds, `none` for `false`; an unparse callback yields what it prints, its
return value and the string left in the buffer. -/
structure format_t where
  format_id : CString
  parse_fn : Globals → CString → List Event × Option Double
  unparse_fn : Globals → Double → Nat → List Event × Bool × CString
  format_help : CString

/-- The function `string_to_seconds_slurm`.  The `int` result is compared with
the unsigned constants after conversion to `unsigned`. -/
def string_to_seconds_slurm (X : Externals) (g : Globals) (stringValue : CString) :
    List Event × Option Double :=
  if g.is_duration_mode then
    let slurm_seconds := X.slurm_time_str2secs stringValue
    if slurm_seconds % 2 ^ 32 = NO_VAL then ([], none)
    else if slurm_seconds % 2 ^ 32 = INFINITE then ([], some (Double.inf false))
    else ([], some (Double.ofInt slurm_seconds))
  else
    let slurm_ts := X.slurm_parse_time stringValue
    if slurm_ts = 0 then ([], none) else ([], some (Double.ofInt slurm_ts))

/-- The function `seconds_to_string_slurm`. -/
def seconds_to_string_slurm (X : Externals) (g : Globals) (secondsValue : Double)
    (stringValueLen : Nat) : List Event × Bool × CString :=
  let slurm_ts := secondsValue.toTimeT
  if g.is_duration_mode then ([], true, X.slurm_secs2time_str slurm_ts stringValueLen)
  else ([], true, X.slurm_make_time_str slurm_ts stringValueLen)

/-- The function `string_to_seconds_raw`: success when `end > stringValue`. -/
def string_to_seconds_raw (_g : Globals) (stringValue : CString) :
    List Event × Option Double :=
  let r := strtod stringValue
  if 0 < r.2 then ([], some r.1) else ([], none)

/-- The function `seconds_to_string_raw`: failure when the return value of
`snprintf` equals the buffer length. -/
def seconds_to_string_raw (g : Globals) (secondsValue : Double) (stringValueLen : Nat) :
    List Event × Bool × CString :=
  let r := snprintf stringValueLen (if g.is_real_output then 3 else 0) secondsValue
  if r.1 = stringValueLen then ([], false, r.2) else ([], true, r.2)

/-- The function `string_to_seconds_libc`. -/
def string_to_seconds_libc (X : Externals) (g : Globals) (stringValue : CString) :
    List Event × Option Double :=
  if g.is_duration_mode then ([Event.err_libc_parse_durations], none)
  else
    match X.strptime_c stringValue with
    | none => ([], none)
    | some parsed_bits =>
      let dbg := if g.is_debug then [Event.debug_strptime parsed_bits] else []
      let to_seconds := X.mktime parsed_bits
      if to_seconds = -1 then (dbg, none) else (dbg, some (Double.ofInt to_seconds))

/-- The function `seconds_to_string_libc`.  Where it returns `false` before
writing, the buffer is reported empty. -/
def seconds_to_string_libc (X : Externals) (g : Globals) (secondsValue : Double)
    (stringValueLen : Nat) : List Event × Bool × CString :=
  if g.is_duration_mode then ([Event.err_libc_unparse_durations], false, [])
  else
    let libc_ts := secondsValue.toTimeT
    match X.localtime_r libc_ts with
    | none => ([], false, [])
    | some unparsed_bits =>
      let dbg := if g.is_debug then [Event.debug_localtime_r unparsed_bits] else []
      let r := X.strftime_c stringValueLen unparsed_bits
      if r.1 = stringValueLen then (dbg, false, r.2) else (dbg, true, r.2)

/-- The entry `libc` of `formats_registry`. -/
def format_libc (X : Externals) : format_t :=
  { format_id := "libc".toList
    parse_fn := string_to_seconds_libc X
    unparse_fn := seconds_to_string_libc X
    format_help := "strptime/strftime with locale-dependent times".toList }

/-- The entry `raw` of `formats_registry`. -/
def format_raw : format_t :=
  { format_id := "raw".toList
    parse_fn := string_to_seconds_raw
    unparse_fn := seconds_to_string_raw
    format_help := "Values are a number of seconds".toList }

/-- The entry `slurm` of `formats_registry`. -/
def format_slurm (X : Externals) : format_t :=
  { format_id := "slurm".toList
    parse_fn := string_to_seconds_slurm X
    unparse_fn := seconds_to_string_slurm X
    format_help := ("Slurm accepts a variety of timestamp and duration formats, " ++
      "please see the 'sbatch' man page").toList }

/-- The table `formats_registry`, without its terminating null entry. -/
def formats_registry (X : Externals) : List format_t :=
  [format_libc X, format_raw, format_slurm X]

/-- The loop of `format_for_id` over the entries from `formats` on. -/
def format_lookup : List format_t → CString → Option format_t
  | [], _ => none
  | f :: fs, format_id =>
    if strcasecmp f.format_id format_id = 0 then some f else format_lookup fs format_id

/-- The function `format_for_id`: `none` for NULL. -/
def format_for_id (X : Externals) (format_id : CString) : Option format_t :=
  format_lookup (formats_registry X) format_id

/-- The function `format_is_valid`. -/
def format_is_valid (X : Externals) (format_id : CString) : Bool :=
  (format_for_id X format_id).isSome

/-! ## usage: the word-wrap of a format's help text -/

/-- The constant `USAGE_FORMAT_HELP_WIDTH`. -/
def USAGE_FORMAT_HELP_WIDTH : Nat := 54

/-- The first inner loop of `usage`: from `s2`, with the count `n` and the
offset `prev_ws` of the last white space seen, advance while `*s2` and
`n < USAGE_FORMAT_HELP_WIDTH`.  The result is the final `s2`, `n` and `prev_ws`. -/
def usage_scan : CString → Nat → Int → CString × Nat × Int
  | [], n, prev_ws => ([], n, prev_ws)
  | c :: t, n, prev_ws =>
    if n < USAGE_FORMAT_HELP_WIDTH then
      usage_scan t (n + 1) (if isspace c then (n : Int) else prev_ws)
    else (c :: t, n, prev_ws)

/-- The offset `s2 - s` that one pass of the outer loop of `usage` reaches
before it prints: the line is cut at the width, extended to the end of the
word, or brought back to the last white space when that is nearer.  The
counters `n` and `prev_ws` are `int` in C and integers here, which agree as
long as the text is shorter than `2 ^ 31` characters. -/
def usage_cut (s : CString) : Int :=
  let r := usage_scan s 0 (-1)
  let s2 := r.1
  let n := r.2.1
  let prev_ws := r.2.2
  if s2 ≠ [] ∧ n = USAGE_FORMAT_HELP_WIDTH then
    let n2 : Int := (n : Int) + ((s2.takeWhile (fun c => !isspace c)).length : Int)
    if 0 ≤ prev_ws ∧ (USAGE_FORMAT_HELP_WIDTH : Int) - prev_ws ≤ n2 - (USAGE_FORMAT_HELP_WIDTH : Int)
    then prev_ws else n2
  else (n : Int)

/-- The text `printf(" %.*s", n, s)` prints after the blank: at most `n`
characters of `s`, all of `s` when the precision `n` is negative. -/
def printf_precision_s (n : Int) (s : CString) : CString :=
  if n < 0 then s else s.take n.toNat

/-- The outer loop `while ( *s )` of `usage` for one help text, `n` being the
value the variable has on entry of the pass.  Each pass yields whether the line
break and indent were printed before it, and the segment printed after the
blank.  The first argument bounds the number of passes: `none` when it is
exhausted before the loop ends. -/
def usage_wrap : Nat → CString → Int → Option (List (Bool × CString))
  | _, [], _ => some []
  | 0, _ :: _, _ => none
  | fuel + 1, c :: t, n =>
    let s := c :: t
    let seg := printf_precision_s (usage_cut s + 1) s
    let n2 : Int := 1 + (seg.length : Int)
    if n2 ≤ 0 then some [(decide (0 < n), seg)]
    else (usage_wrap fuel (s.drop (n2 - 1).toNat) n2).map (fun l => (decide (0 < n), seg) :: l)

/-- The segments `usage` prints for a help text, `n` starting at `-1`. -/
def usage_format_help (fuel : Nat) (format_help : CString) : Option (List (Bool × CString)) :=
  usage_wrap fuel format_help (-1)

/-! ## main -/

/-- One result of `getopt_long` over `cli_options`; `other` stands for the
results `main` has no case for. -/
inductive Opt where
  | h
  | D
  | q
  | r
  | F (optarg : Option CString)
  | T (optarg : Option CString)
  | d
  | t
  | other
  deriving DecidableEq, Repr

/-- The local variables of `main` the option loop sets, with the globals. -/
structure Settings where
  rc : Int
  from_format : CString
  to_format : CString
  is_quiet : Bool
  globals : Globals
  deriving DecidableEq, Repr

/-- The state `main` starts the option loop in. -/
def initial_settings : Settings :=
  { rc := 0
    from_format := "slurm".toList
    to_format := "raw".toList
    is_quiet := false
    globals := { is_duration_mode := false, is_debug := false, is_real_output := false } }

/-- The test `optarg && *optarg && format_is_valid(optarg)`. -/
def optarg_ok (X : Externals) : Option CString → Bool
  | none => false
  | some a => a ≠ [] && format_is_valid X a

/-- The body of the option loop of `main` for one option. -/
def option_step (X : Externals) (st : Settings) : Opt → Settings × List Event
  | Opt.h => (st, [Event.usage])
  | Opt.D => ({ st with globals := { st.globals with is_debug := true } }, [])
  | Opt.q => ({ st with is_quiet := true }, [])
  | Opt.r => ({ st with globals := { st.globals with is_real_output := true } }, [])
  | Opt.F optarg =>
    if optarg_ok X optarg then ({ st with from_format := optarg.getD [] }, [])
    else ({ st with rc := EINVAL }, [Event.err_invalid_from optarg])
  | Opt.T optarg =>
    if optarg_ok X optarg then ({ st with to_format := optarg.getD [] }, [])
    else ({ st with rc := EINVAL }, [Event.err_invalid_to optarg])
  | Opt.d => ({ st with globals := { st.globals with is_duration_mode := true } }, [])
  | Opt.t => ({ st with globals := { st.globals with is_duration_mode := false } }, [])
  | Opt.other => (st, [])

/-- The option loop `while ( ! rc && getopt_long(...) != -1 )` of `main`. -/
def parse_options (X : Externals) : List Opt → Settings → Settings × List Event
  | [], st => (st, [])
  | o :: os, st =>
    if st.rc ≠ 0 then (st, [])
    else
      let a := option_step X st o
      let b := parse_options X os a.1
      (b.1, a.2 ++ b.2)

/-- The conversion of one value, which `main` writes out twice (for a line of
stdin and for a positional argument): parse, unparse, print.  The result is
the new `rc` and what happened. -/
def convert_value (g : Globals) (parse unparse : format_t) (from_format to_format : CString)
    (value : CString) (rc : Int) : Int × List Event :=
  let p := parse.parse_fn g value
  match p.2 with
  | some seconds =>
    let dbg := if g.is_debug then [Event.debug_parsed seconds] else []
    let u := unparse.unparse_fn g seconds 128
    if u.2.1 then
      (rc, Event.call_parse parse.format_id value :: p.1 ++ dbg ++
        Event.call_unparse unparse.format_id seconds :: u.1 ++ [Event.printed u.2.2])
    else
      (EINVAL, Event.call_parse parse.format_id value :: p.1 ++ dbg ++
        Event.call_unparse unparse.format_id seconds :: u.1 ++
        [Event.err_unparse seconds to_format])
  | none =>
    (EINVAL, Event.call_parse parse.format_id value :: p.1 ++ [Event.err_parse value from_format])

/-- The string `main` leaves in the line buffer before it parses it: the
characters before the first NUL, without the trailing white space, which the
loop `while ( i && isspace(s[i-1]) )` overwrites from the end. -/
def trim_line (line : List Char) : CString :=
  ((cstr line).reverse.dropWhile isspace).reverse

/-- The loop `while ( ! rc && ! feof(stdin) )` of `main`.  The stream is the
list of the lines its `getline` calls return, each with its newline, the last
one possibly without; the test `getline(...) > 0` is the test that the line
holds a character. -/
def read_stdin (g : Globals) (parse unparse : format_t) (from_format to_format : CString) :
    List (List Char) → Int → Int × List Event
  | [], rc => (rc, [])
  | line :: rest, rc =>
    if rc ≠ 0 then (rc, [])
    else if 0 < line.length then
      let a := convert_value g parse unparse from_format to_format (trim_line line) rc
      let b := read_stdin g parse unparse from_format to_format rest a.1
      (b.1, a.2 ++ b.2)
    else read_stdin g parse unparse from_format to_format rest rc

/-- The loop `while ( ! rc && (optind < argc) )` of `main` over the positional
arguments left. -/
def process_values (g : Globals) (parse unparse : format_t) (from_format to_format : CString)
    (stdin : List (List Char)) : List CString → Int → Bool → Int × List Event
  | [], rc, _ => (rc, [])
  | v :: vs, rc, did_see_stdin =>
    if rc ≠ 0 then (rc, [])
    else if strcmp v ['-'] = 0 then
      if did_see_stdin then
        let b := process_values g parse unparse from_format to_format stdin vs EINVAL did_see_stdin
        (b.1, Event.err_multiple_stdin :: b.2)
      else
        let a := read_stdin g parse unparse from_format to_format stdin rc
        let b := process_values g parse unparse from_format to_format stdin vs a.1 true
        (b.1, a.2 ++ b.2)
    else
      let a := convert_value g parse unparse from_format to_format v rc
      let b := process_values g parse unparse from_format to_format stdin vs a.1 did_see_stdin
      (b.1, a.2 ++ b.2)

/-- The function `main`, on the options `getopt_long` delivers, the positional
arguments left after them and the lines of stdin.  The result is the exit
status and what happened, in order. -/
def main (X : Externals) (opts : List Opt) (values : List CString) (stdin : List (List Char)) :
    Int × List Event :=
  let o := parse_options X opts initial_settings
  let st := o.1
  if st.rc = 0 then
    match format_for_id X st.from_format, format_for_id X st.to_format with
    | some parse, some unparse =>
      let quiet := if st.is_quiet then [Event.freopen_stderr] else []
      let r := process_values st.globals parse unparse st.from_format st.to_format stdin
        values st.rc false
      (r.1, o.2 ++ quiet ++ r.2)
    | _, _ => (139, o.2 ++ [Event.null_dereference])
  else (st.rc, o.2)

/-- Whether an event writes to stdout. -/
def Event.on_stdout : Event → Bool
  | Event.usage => true
  | Event.debug_parsed _ => true
  | Event.debug_strptime _ => true
  | Event.debug_localtime_r _ => true
  | Event.printed _ => true
  | _ => false

/-- Whether an event is a call of a format's parse or unparse callback. -/
def Event.is_call : Event → Bool
  | Event.call_parse _ _ => true
  | Event.call_unparse _ _ => true
  | _ => false

/-- The values passed to a parse callback during a run, in order. -/
def parsed_values : List Event → List CString
  | [] => []
  | Event.call_parse _ value :: es => value :: parsed_values es
  | _ :: es => parsed_values es

/-! ## Notions the statements use -/

/-- What the option loop prints: the usage text and its two error messages. -/
def Event.from_options : Event → Bool
  | Event.usage => true
  | Event.err_invalid_from _ => true
  | Event.err_invalid_to _ => true
  | _ => false

/-- What the callbacks of the registry print themselves. -/
def Event.from_callback : Event → Bool
  | Event.debug_strptime _ => true
  | Event.debug_localtime_r _ => true
  | Event.err_libc_parse_durations => true
  | Event.err_libc_unparse_durations => true
  | _ => false

/-- Whether a value converts: the parse callback of `parse` succeeds on it and
the unparse callback of `unparse` succeeds on the seconds, with the 128-byte
buffer of `main`. -/
def converts (g : Globals) (parse unparse : format_t) (value : CString) : Bool :=
  match (parse.parse_fn g value).2 with
  | some seconds => (unparse.unparse_fn g seconds 128).2.1
  | none => false

/-- The text `unparse_to(parse_from(value))`: what the unparse callback leaves
in the buffer for the seconds the parse callback yields. -/
def rendered (g : Globals) (parse unparse : format_t) (value : CString) : CString :=
  match (parse.parse_fn g value).2 with
  | some seconds => (unparse.unparse_fn g seconds 128).2.2
  | none => []

/-- Routines that reject every input, to run the program on the `raw` format. -/
def rejecting_externals : Externals :=
  { slurm_time_str2secs := fun _ => -2
    slurm_parse_time := fun _ => 0
    slurm_secs2time_str := fun _ _ => []
    slurm_make_time_str := fun _ _ => []
    strptime_c := fun _ => none
    mktime := fun _ => -1
    localtime_r := fun _ => none
    strftime_c := fun _ _ => (0, []) }

/-- The globals `main` starts with: timestamp mode, no debug output, integer
output. -/
def default_globals : Globals :=
  { is_duration_mode := false, is_debug := false, is_real_output := false }

/-- The globals after `--reals`. -/
def reals_globals : Globals :=
  { is_duration_mode := false, is_debug := false, is_real_output := true }

/-- A seconds value rounded to `prec` decimals, ties to even, as the double
nearest to the rounded decimal; an infinity or a NaN is left as it is. -/
def roundedToDecimals (prec : Nat) : Double → Double
  | Double.fin neg num k =>
    scaled neg (roundHalfEven (num * 10 ^ prec) (2 ^ k)) 10 (0 - (prec : Int))
  | d => d

/-! ## Characters and string comparison -/

theorem tolower_eq_nul (c : Char) : tolower c = '\x00' ↔ c = '\x00' := by
  unfold tolower
  split <;> simp_all

theorem toNat_inj {c d : Char} (h : c.toNat = d.toNat) : c = d := by
  rw [← Char.ofNat_toNat c, ← Char.ofNat_toNat d, h]

theorem toNat_eq_zero {c : Char} : c.toNat = 0 ↔ c = '\x00' := by
  constructor
  · intro h; exact toNat_inj h
  · rintro rfl; rfl

theorem strcasecmp_eq_zero_iff (a b : List Char) :
    strcasecmp a b = 0 ↔ (cstr a).map tolower = (cstr b).map tolower := by
  induction a generalizing b with
  | nil =>
    cases b with
    | nil => simp [strcasecmp]
    | cons b bs =>
      by_cases hb : b = '\x00'
      · subst hb; simp [strcasecmp, cstr]; rfl
      · have : ¬ (tolower b).toNat = 0 := by rw [toNat_eq_zero, tolower_eq_nul]; exact hb
        simp [strcasecmp, cstr, hb]; omega
  | cons a as ih =>
    cases b with
    | nil =>
      by_cases ha : a = '\x00'
      · subst ha; simp [strcasecmp, cstr]; rfl
      · have : ¬ (tolower a).toNat = 0 := by rw [toNat_eq_zero, tolower_eq_nul]; exact ha
        simp [strcasecmp, cstr, ha]; omega
    | cons b bs =>
      by_cases hab : tolower a = tolower b
      · by_cases ha : a = '\x00'
        · have hb : b = '\x00' := by
            rw [← tolower_eq_nul, ← hab, tolower_eq_nul]; exact ha
          subst ha; subst hb; simp [strcasecmp, cstr]
        · have hb : ¬ b = '\x00' := by
            rw [← tolower_eq_nul, ← hab, tolower_eq_nul]; exact ha
          have := ih bs
          simp only [cstr] at this
          simp [strcasecmp, cstr, hab, ha, hb, this]
      · have hne : ¬ (tolower a).toNat = (tolower b).toNat := fun h => hab (toNat_inj h)
        have h1 : ¬ ((tolower a).toNat : Int) - ((tolower b).toNat : Int) = 0 := by omega
        simp only [strcasecmp, hab, if_false, h1, false_iff]
        by_cases ha : a = '\x00'
        · have hb : ¬ b = '\x00' := by
            intro hb; apply hab; rw [ha, hb]
          simp [cstr, ha, hb]
        · by_cases hb : b = '\x00'
          · simp [cstr, ha, hb]
          · simp [cstr, ha, hb, hab]

theorem strcmp_eq_zero_iff (a b : List Char) : strcmp a b = 0 ↔ cstr a = cstr b := by
  induction a generalizing b with
  | nil =>
    cases b with
    | nil => simp [strcmp]
    | cons b bs =>
      by_cases hb : b = '\x00'
      · subst hb; simp [strcmp, cstr]
      · have : ¬ b.toNat = 0 := by rw [toNat_eq_zero]; exact hb
        simp [strcmp, cstr, hb]; omega
  | cons a as ih =>
    cases b with
    | nil =>
      by_cases ha : a = '\x00'
      · subst ha; simp [strcmp, cstr]
      · have : ¬ a.toNat = 0 := by rw [toNat_eq_zero]; exact ha
        simp [strcmp, cstr, ha]; omega
    | cons b bs =>
      by_cases hab : a = b
      · subst hab
        by_cases ha : a = '\x00'
        · subst ha; simp [strcmp, cstr]
        · have := ih bs
          simp only [cstr] at this
          simp [strcmp, cstr, ha, this]
      · have hne : ¬ a.toNat = b.toNat := fun h => hab (toNat_inj h)
        have h1 : ¬ (a.toNat : Int) - (b.toNat : Int) = 0 := by omega
        simp only [strcmp, hab, if_false, h1, false_iff]
        by_cases ha : a = '\x00'
        · have hb : ¬ b = '\x00' := by
            intro hb; apply hab; rw [ha, hb]
          simp [cstr, ha, hb]
        · by_cases hb : b = '\x00'
          · simp [cstr, ha, hb]
          · simp [cstr, ha, hb, hab]

theorem cstr_map_tolower (s : List Char) : cstr (s.map tolower) = (cstr s).map tolower := by
  induction s with
  | nil => rfl
  | cons c cs ih =>
    by_cases hc : c = '\x00'
    · subst hc; simp [cstr]; rfl
    · have : ¬ tolower c = '\x00' := by rw [tolower_eq_nul]; exact hc
      simp only [cstr] at ih
      simp [cstr, hc, this]
      simpa using ih

/-! ## The registry -/

/-- The lookup as a case distinction on the lower-cased identifier. -/
theorem format_for_id_eq (X : Externals) (s : CString) :
    format_for_id X s =
      if "libc".toList = (cstr s).map tolower then some (format_libc X)
      else if "raw".toList = (cstr s).map tolower then some format_raw
      else if "slurm".toList = (cstr s).map tolower then some (format_slurm X)
      else none := by
  have h1 : (cstr (format_libc X).format_id).map tolower = "libc".toList :=
    show (cstr "libc".toList).map tolower = "libc".toList by decide
  have h2 : (cstr format_raw.format_id).map tolower = "raw".toList := by decide
  have h3 : (cstr (format_slurm X).format_id).map tolower = "slurm".toList :=
    show (cstr "slurm".toList).map tolower = "slurm".toList by decide
  simp only [format_for_id, formats_registry, format_lookup, strcasecmp_eq_zero_iff,
    h1, h2, h3]

/-- C7. Registry lookup is case-insensitive.  For every identifier `s`:
`format_for_id` returns the registry entry whose `format_id` equals `s` when
letter case is ignored; what it returns is such an entry; it returns NULL
exactly when `s`, lower-cased, is none of `libc`, `raw`, `slurm`; two
identifiers that differ only in letter case get the same result, so `SLURM`
and `slurm` do; and `format_is_valid` is true exactly when `format_for_id`
finds an entry. -/
theorem format_for_id_case_insensitive (X : Externals) (s : CString) :
    (∀ f ∈ formats_registry X, (cstr f.format_id).map tolower = (cstr s).map tolower →
        format_for_id X s = some f)
    ∧ (∀ f, format_for_id X s = some f →
        f ∈ formats_registry X ∧ (cstr f.format_id).map tolower = (cstr s).map tolower)
    ∧ (format_for_id X s = none ↔
        (cstr s).map tolower ∉ ["libc".toList, "raw".toList, "slurm".toList])
    ∧ (∀ t : CString, t.map tolower = s.map tolower → format_for_id X t = format_for_id X s)
    ∧ format_for_id X "SLURM".toList = format_for_id X "slurm".toList
    ∧ (format_is_valid X s = true ↔ ∃ f, format_for_id X s = some f) := by
  have e1 : (cstr (format_libc X).format_id).map tolower = "libc".toList :=
    show (cstr "libc".toList).map tolower = "libc".toList by decide
  have e2 : (cstr format_raw.format_id).map tolower = "raw".toList := by decide
  have e3 : (cstr (format_slurm X).format_id).map tolower = "slurm".toList :=
    show (cstr "slurm".toList).map tolower = "slurm".toList by decide
  have n12 : "libc".toList ≠ "raw".toList := by decide
  have n13 : "libc".toList ≠ "slurm".toList := by decide
  have n23 : "raw".toList ≠ "slurm".toList := by decide
  refine ⟨?_, ?_, ?_, ?_, ?_, ?_⟩
  · intro f hf h
    rw [format_for_id_eq]
    simp only [formats_registry, List.mem_cons, List.mem_singleton, List.not_mem_nil,
      or_false] at hf
    rcases hf with rfl | rfl | rfl
    · rw [e1] at h; rw [if_pos h]
    · rw [e2] at h; rw [if_neg (by rw [← h]; exact n12), if_pos h]
    · rw [e3] at h
      rw [if_neg (by rw [← h]; exact n13), if_neg (by rw [← h]; exact n23), if_pos h]
  · intro f hf
    rw [format_for_id_eq] at hf
    split_ifs at hf with h1 h2 h3
    · cases hf; exact ⟨by simp [formats_registry], by rw [e1]; exact h1⟩
    · cases hf; exact ⟨by simp [formats_registry], by rw [e2]; exact h2⟩
    · cases hf; exact ⟨by simp [formats_registry], by rw [e3]; exact h3⟩
  · rw [format_for_id_eq]
    simp only [List.mem_cons, List.mem_singleton, List.not_mem_nil, or_false]
    split_ifs with h1 h2 h3
    · exact Iff.intro (fun h => h.elim) (fun hn => absurd (Or.inl h1.symm) hn)
    · exact Iff.intro (fun h => h.elim) (fun hn => absurd (Or.inr (Or.inl h2.symm)) hn)
    · exact Iff.intro (fun h => h.elim) (fun hn => absurd (Or.inr (Or.inr h3.symm)) hn)
    · refine ⟨fun _ => ?_, fun _ => rfl⟩
      rintro (h | h | h)
      exacts [h1 h.symm, h2 h.symm, h3 h.symm]
  · intro t ht
    have : (cstr t).map tolower = (cstr s).map tolower := by
      rw [← cstr_map_tolower, ← cstr_map_tolower, ht]
    rw [format_for_id_eq, format_for_id_eq, this]
  · rw [format_for_id_eq, format_for_id_eq]
    rfl
  · simp [format_is_valid, Option.isSome_iff_exists]

/-! ## The word-wrap of usage -/

theorem usage_cut_nonneg (s : CString) : 0 ≤ usage_cut s := by
  unfold usage_cut
  simp only
  split_ifs with h1 h2
  · exact h2.1
  · omega
  · omega

theorem printf_precision_s_prefix (n : Int) (s : CString) (hn : 1 ≤ n) (hs : s ≠ []) :
    printf_precision_s n s ≠ [] ∧
    printf_precision_s n s ++ s.drop (printf_precision_s n s).length = s := by
  have h0 : ¬ n < 0 := by omega
  simp only [printf_precision_s, h0, if_false]
  constructor
  · cases s with
    | nil => exact absurd rfl hs
    | cons c t =>
      obtain ⟨m, hm⟩ : ∃ m, n.toNat = m + 1 := ⟨n.toNat - 1, by omega⟩
      rw [hm]; simp
  · rw [List.length_take]
    by_cases h : n.toNat ≤ s.length
    · rw [Nat.min_eq_left h]; exact List.take_append_drop _ _
    · have h2 : s.length ≤ n.toNat := by omega
      rw [Nat.min_eq_right h2, List.take_of_length_le h2]; simp

theorem usage_wrap_total (fuel : Nat) : ∀ (s : CString) (n : Int), s.length ≤ fuel →
    ∃ segs, usage_wrap fuel s n = some segs ∧ (∀ x ∈ segs, x.2 ≠ []) ∧
      (segs.map Prod.snd).flatten = s := by
  induction fuel with
  | zero =>
    intro s n h
    cases s with
    | nil => exact ⟨[], rfl, by simp, rfl⟩
    | cons c t => simp at h
  | succ fuel ih =>
    intro s n h
    cases s with
    | nil => exact ⟨[], rfl, by simp, rfl⟩
    | cons c t =>
      have hcut := usage_cut_nonneg (c :: t)
      obtain ⟨hne, happ⟩ := printf_precision_s_prefix (usage_cut (c :: t) + 1) (c :: t)
        (by omega) (by simp)
      have hlen : 1 ≤ (printf_precision_s (usage_cut (c :: t) + 1) (c :: t)).length :=
        List.length_pos.mpr hne
      have hn2 : ¬ (1 + ((printf_precision_s (usage_cut (c :: t) + 1) (c :: t)).length : Int) ≤ 0) := by
        omega
      have hk : (1 + ((printf_precision_s (usage_cut (c :: t) + 1) (c :: t)).length : Int) - 1).toNat
          = (printf_precision_s (usage_cut (c :: t) + 1) (c :: t)).length := by omega
      have hrest : ((c :: t).drop (printf_precision_s (usage_cut (c :: t) + 1) (c :: t)).length).length
          ≤ fuel := by
        rw [List.length_drop]; simp only [List.length_cons] at h ⊢; omega
      obtain ⟨segs, h1, h2, h3⟩ := ih _ (1 + ((printf_precision_s (usage_cut (c :: t) + 1) (c :: t)).length : Int)) hrest
      refine ⟨(decide (0 < n), printf_precision_s (usage_cut (c :: t) + 1) (c :: t)) :: segs, ?_, ?_, ?_⟩
      · simp only [usage_wrap, hn2, if_false, hk, h1, Option.map_some']
      · intro x hx
        rcases List.mem_cons.mp hx with rfl | hx
        · exact hne
        · exact h2 x hx
      · simp only [List.map_cons, List.flatten_cons, h3]
        exact happ
theorem usage_wrap_mono (fuel : Nat) : ∀ (fuel2 : Nat) (s : CString) (n : Int)
    (segs : List (Bool × CString)), usage_wrap fuel s n = some segs → fuel ≤ fuel2 →
    usage_wrap fuel2 s n = some segs := by
  induction fuel with
  | zero =>
    intro fuel2 s n segs h _
    cases s with
    | nil =>
      cases fuel2 <;> simpa [usage_wrap] using h
    | cons c t => simp [usage_wrap] at h
  | succ fuel ih =>
    intro fuel2 s n segs h hle
    obtain ⟨f2, rfl⟩ : ∃ f2, fuel2 = f2 + 1 := ⟨fuel2 - 1, by omega⟩
    cases s with
    | nil => simpa [usage_wrap] using h
    | cons c t =>
      simp only [usage_wrap] at h ⊢
      split_ifs at h ⊢ with h0
      · exact h
      · cases hr : usage_wrap fuel
            (List.drop (1 + ((printf_precision_s (usage_cut (c :: t) + 1) (c :: t)).length : Int) - 1).toNat
              (c :: t))
            (1 + ((printf_precision_s (usage_cut (c :: t) + 1) (c :: t)).length : Int)) with
        | none => rw [hr] at h; simp at h
        | some l =>
          rw [hr] at h
          rw [ih f2 _ _ l hr (by omega)]
          exact h

/-- C10. The word-wrap loop of `usage` terminates on every help text: with a
bound of at least the length of the text on the number of passes, the loop
ends, always with the same list of segments; every pass emits a non-empty
segment, which is a prefix of the text left, and goes on with what follows
it; and the segments, concatenated in order, are exactly the help text, so
that no character is dropped or printed twice. -/
theorem usage_wrap_terminates_and_covers (format_help : CString) :
    (∃ segs : List (Bool × CString),
      (∀ fuel, format_help.length ≤ fuel → usage_format_help fuel format_help = some segs)
      ∧ (∀ x ∈ segs, x.2 ≠ [])
      ∧ (segs.map Prod.snd).flatten = format_help)
    ∧ ∀ (fuel : Nat) (c : Char) (t : CString) (n : Int),
        printf_precision_s (usage_cut (c :: t) + 1) (c :: t) ≠ []
        ∧ printf_precision_s (usage_cut (c :: t) + 1) (c :: t) ++
            (c :: t).drop (printf_precision_s (usage_cut (c :: t) + 1) (c :: t)).length = c :: t
        ∧ usage_wrap (fuel + 1) (c :: t) n =
            (usage_wrap fuel
              ((c :: t).drop (printf_precision_s (usage_cut (c :: t) + 1) (c :: t)).length)
              (1 + ((printf_precision_s (usage_cut (c :: t) + 1) (c :: t)).length : Int))).map
              (fun l => (decide (0 < n), printf_precision_s (usage_cut (c :: t) + 1) (c :: t)) :: l)
    := by
  constructor
  · obtain ⟨segs, h1, h2, h3⟩ :=
      usage_wrap_total format_help.length format_help (-1) (le_refl _)
    exact ⟨segs, fun fuel hf => usage_wrap_mono _ fuel _ _ segs h1 hf, h2, h3⟩
  · intro fuel c t n
    have hcut := usage_cut_nonneg (c :: t)
    obtain ⟨hne, happ⟩ := printf_precision_s_prefix (usage_cut (c :: t) + 1) (c :: t)
      (by omega) (by simp)
    refine ⟨hne, happ, ?_⟩
    have hn2 : ¬ (1 + ((printf_precision_s (usage_cut (c :: t) + 1) (c :: t)).length : Int)
        ≤ 0) := by omega
    have hk : (1 + ((printf_precision_s (usage_cut (c :: t) + 1) (c :: t)).length : Int)
        - 1).toNat = (printf_precision_s (usage_cut (c :: t) + 1) (c :: t)).length := by omega
    simp only [usage_wrap, hn2, if_false, hk]

/-! ## The option loop -/

theorem parse_options_stop (X : Externals) (opts : List Opt) (st : Settings) (h : st.rc ≠ 0) :
    parse_options X opts st = (st, []) := by
  cases opts <;> simp [parse_options, h]

theorem option_step_rc (X : Externals) (st : Settings) (o : Opt) :
    (option_step X st o).1.rc = st.rc ∨ (option_step X st o).1.rc = EINVAL := by
  cases o <;> simp only [option_step] <;> first | (split_ifs <;> simp) | simp

theorem parse_options_rc (X : Externals) (opts : List Opt) : ∀ st : Settings,
    (parse_options X opts st).1.rc = st.rc ∨ (parse_options X opts st).1.rc = EINVAL := by
  induction opts with
  | nil => intro st; left; rfl
  | cons o os ih =>
    intro st
    by_cases h : st.rc = 0
    · simp only [parse_options, h, ne_eq, not_true_eq_false, if_false]
      rcases ih (option_step X st o).1 with h1 | h1
      · rw [h1, ← h]; exact option_step_rc X st o
      · right; exact h1
    · left; rw [parse_options_stop X _ st h]

theorem option_step_invalid (X : Externals) (st : Settings) (a : Option CString)
    (h : optarg_ok X a = false) :
    (option_step X st (Opt.F a)).1.rc = EINVAL ∧ (option_step X st (Opt.T a)).1.rc = EINVAL := by
  simp [option_step, h]

theorem parse_options_invalid (X : Externals) (opts : List Opt) (a : Option CString)
    (h : optarg_ok X a = false) (hmem : Opt.F a ∈ opts ∨ Opt.T a ∈ opts) :
    ∀ st : Settings, st.rc = 0 → (parse_options X opts st).1.rc = EINVAL := by
  induction opts with
  | nil => simp at hmem
  | cons o os ih =>
    intro st hst
    simp only [parse_options, hst, ne_eq, not_true_eq_false, if_false]
    by_cases h1 : (option_step X st o).1.rc = 0
    · apply ih _ _ h1
      rcases hmem with hm | hm
      · rcases List.mem_cons.mp hm with rfl | hm
        · rw [(option_step_invalid X st a h).1] at h1; exact absurd h1 (by decide)
        · exact Or.inl hm
      · rcases List.mem_cons.mp hm with rfl | hm
        · rw [(option_step_invalid X st a h).2] at h1; exact absurd h1 (by decide)
        · exact Or.inr hm
    · rw [parse_options_stop X _ _ h1]
      rcases option_step_rc X st o with h2 | h2
      · rw [h2] at h1; exact absurd hst h1
      · exact h2

theorem parse_options_events (X : Externals) (opts : List Opt) : ∀ st : Settings,
    ∀ e ∈ (parse_options X opts st).2, e.from_options = true := by
  induction opts with
  | nil => intro st e he; simp [parse_options] at he
  | cons o os ih =>
    intro st e he
    by_cases h : st.rc = 0
    · simp only [parse_options, h, ne_eq, not_true_eq_false, if_false, List.mem_append] at he
      rcases he with he | he
      · cases o <;> simp only [option_step] at he <;>
          first
          | (simp at he; done)
          | (simp only [List.mem_singleton] at he; subst he; rfl)
          | (split_ifs at he <;> simp at he <;> subst he <;> rfl)
      · exact ih _ e he
    · rw [parse_options_stop X _ st h] at he; simp at he

/-! ## The conversion of one value -/

theorem EINVAL_ne_zero : EINVAL ≠ 0 := by decide

theorem convert_value_of_converts (g : Globals) (parse unparse : format_t)
    (ff tf value : CString) (rc : Int) (h : converts g parse unparse value = true) :
    ∃ seconds, (parse.parse_fn g value).2 = some seconds ∧
      convert_value g parse unparse ff tf value rc =
        (rc, Event.call_parse parse.format_id value :: (parse.parse_fn g value).1 ++
          (if g.is_debug then [Event.debug_parsed seconds] else []) ++
          Event.call_unparse unparse.format_id seconds :: (unparse.unparse_fn g seconds 128).1 ++
          [Event.printed (rendered g parse unparse value)]) := by
  unfold converts at h
  cases hp : (parse.parse_fn g value).2 with
  | none => rw [hp] at h; simp at h
  | some seconds =>
    rw [hp] at h
    simp only at h
    exact ⟨seconds, rfl, by simp only [convert_value, rendered, hp, h, if_true]⟩

theorem convert_value_of_not_converts (g : Globals) (parse unparse : format_t)
    (ff tf value : CString) (rc : Int) (h : converts g parse unparse value = false) :
    (convert_value g parse unparse ff tf value rc).1 = EINVAL := by
  unfold converts at h
  cases hp : (parse.parse_fn g value).2 with
  | none => simp only [convert_value, hp]
  | some seconds =>
    rw [hp] at h
    simp only at h
    simp only [convert_value, hp, h, Bool.false_eq_true, if_false]

theorem convert_value_rc (g : Globals) (parse unparse : format_t)
    (ff tf value : CString) (rc : Int) :
    (convert_value g parse unparse ff tf value rc).1 =
      if converts g parse unparse value then rc else EINVAL := by
  cases h : converts g parse unparse value with
  | true =>
    obtain ⟨_, _, h2⟩ := convert_value_of_converts g parse unparse ff tf value rc h
    rw [h2]; rfl
  | false =>
    rw [convert_value_of_not_converts g parse unparse ff tf value rc h]; rfl

/-! ## The two loops of main -/

theorem read_stdin_stop (g : Globals) (parse unparse : format_t) (ff tf : CString)
    (ls : List (List Char)) (rc : Int) (h : rc ≠ 0) :
    read_stdin g parse unparse ff tf ls rc = (rc, []) := by
  cases ls <;> simp [read_stdin, h]

theorem process_values_stop (g : Globals) (parse unparse : format_t) (ff tf : CString)
    (stdin : List (List Char)) (vs : List CString) (rc : Int) (d : Bool) (h : rc ≠ 0) :
    process_values g parse unparse ff tf stdin vs rc d = (rc, []) := by
  cases vs <;> simp [process_values, h]

theorem read_stdin_append_of_failed (g : Globals) (parse unparse : format_t) (ff tf : CString)
    (more : List (List Char)) : ∀ (ls : List (List Char)) (rc : Int),
    (read_stdin g parse unparse ff tf ls rc).1 ≠ 0 →
    read_stdin g parse unparse ff tf (ls ++ more) rc = read_stdin g parse unparse ff tf ls rc := by
  intro ls
  induction ls with
  | nil =>
    intro rc h
    simp only [read_stdin] at h
    simp only [List.nil_append, read_stdin]
    exact read_stdin_stop g parse unparse ff tf more rc h
  | cons l ls ih =>
    intro rc h
    by_cases hrc : rc = 0
    · subst hrc
      rw [List.cons_append]
      simp only [read_stdin, ne_eq, not_true_eq_false, if_false] at h ⊢
      split_ifs at h ⊢ with hl
      · rw [ih _ h]
      · rw [ih _ h]
    · rw [read_stdin_stop _ _ _ _ _ _ _ hrc, read_stdin_stop _ _ _ _ _ _ _ hrc]

theorem process_values_append_of_failed (g : Globals) (parse unparse : format_t)
    (ff tf : CString) (stdin : List (List Char)) (post : List CString) :
    ∀ (vs : List CString) (rc : Int) (d : Bool),
    (process_values g parse unparse ff tf stdin vs rc d).1 ≠ 0 →
    process_values g parse unparse ff tf stdin (vs ++ post) rc d =
      process_values g parse unparse ff tf stdin vs rc d := by
  intro vs
  induction vs with
  | nil =>
    intro rc d h
    simp only [process_values] at h
    simp only [List.nil_append, process_values]
    exact process_values_stop g parse unparse ff tf stdin post rc d h
  | cons v vs ih =>
    intro rc d h
    by_cases hrc : rc = 0
    · subst hrc
      rw [List.cons_append]
      simp only [process_values, ne_eq, not_true_eq_false, if_false] at h ⊢
      split_ifs at h ⊢ with h1 h2
      · rw [ih _ _ h]
      · rw [ih _ _ h]
      · rw [ih _ _ h]
    · rw [process_values_stop _ _ _ _ _ _ _ _ _ hrc, process_values_stop _ _ _ _ _ _ _ _ _ hrc]

theorem read_stdin_rc (g : Globals) (parse unparse : format_t) (ff tf : CString) :
    ∀ (ls : List (List Char)) (rc : Int),
    (read_stdin g parse unparse ff tf ls rc).1 = rc ∨
      (read_stdin g parse unparse ff tf ls rc).1 = EINVAL := by
  intro ls
  induction ls with
  | nil => intro rc; left; rfl
  | cons l ls ih =>
    intro rc
    by_cases hrc : rc = 0
    · subst hrc
      simp only [read_stdin, ne_eq, not_true_eq_false, if_false]
      split_ifs with hl
      · rcases ih (convert_value g parse unparse ff tf (trim_line l) 0).1 with h | h
        · rw [h, convert_value_rc]
          split_ifs <;> simp
        · right; exact h
      · exact ih 0
    · left; rw [read_stdin_stop _ _ _ _ _ _ _ hrc]

theorem process_values_rc (g : Globals) (parse unparse : format_t) (ff tf : CString)
    (stdin : List (List Char)) : ∀ (vs : List CString) (rc : Int) (d : Bool),
    (process_values g parse unparse ff tf stdin vs rc d).1 = rc ∨
      (process_values g parse unparse ff tf stdin vs rc d).1 = EINVAL := by
  intro vs
  induction vs with
  | nil => intro rc d; left; rfl
  | cons v vs ih =>
    intro rc d
    by_cases hrc : rc = 0
    · subst hrc
      simp only [process_values, ne_eq, not_true_eq_false, if_false]
      split_ifs with h1 h2
      · rcases ih EINVAL d with h | h <;> (right; exact h)
      · rcases ih (read_stdin g parse unparse ff tf stdin 0).1 true with h | h
        · rw [h]; exact read_stdin_rc g parse unparse ff tf stdin 0
        · right; exact h
      · rcases ih (convert_value g parse unparse ff tf v 0).1 d with h | h
        · rw [h, convert_value_rc]
          split_ifs <;> simp
        · right; exact h
    · left; rw [process_values_stop _ _ _ _ _ _ _ _ _ hrc]

/-! ## The formats main works with -/

theorem format_for_id_mem (X : Externals) (s : CString) (f : format_t)
    (h : format_for_id X s = some f) : f ∈ formats_registry X := by
  rw [format_for_id_eq] at h
  split_ifs at h <;> cases h <;> simp [formats_registry]

theorem option_step_formats (X : Externals) (st : Settings) (o : Opt)
    (h : format_is_valid X st.from_format = true ∧ format_is_valid X st.to_format = true) :
    format_is_valid X (option_step X st o).1.from_format = true ∧
      format_is_valid X (option_step X st o).1.to_format = true := by
  cases o with
  | F a =>
    simp only [option_step]
    split_ifs with h1
    · cases a with
      | none => simp [optarg_ok] at h1
      | some s =>
        simp only [optarg_ok, Bool.and_eq_true] at h1
        exact ⟨h1.2, h.2⟩
    · exact h
  | T a =>
    simp only [option_step]
    split_ifs with h1
    · cases a with
      | none => simp [optarg_ok] at h1
      | some s =>
        simp only [optarg_ok, Bool.and_eq_true] at h1
        exact ⟨h.1, h1.2⟩
    · exact h
  | _ => exact h

theorem parse_options_formats (X : Externals) (opts : List Opt) : ∀ st : Settings,
    format_is_valid X st.from_format = true ∧ format_is_valid X st.to_format = true →
    format_is_valid X (parse_options X opts st).1.from_format = true ∧
      format_is_valid X (parse_options X opts st).1.to_format = true := by
  induction opts with
  | nil => intro st h; exact h
  | cons o os ih =>
    intro st h
    by_cases hrc : st.rc = 0
    · simp only [parse_options, hrc, ne_eq, not_true_eq_false, if_false]
      exact ih _ (option_step_formats X st o h)
    · rw [parse_options_stop X _ st hrc]; exact h

theorem initial_formats (X : Externals) :
    format_is_valid X initial_settings.from_format = true ∧
      format_is_valid X initial_settings.to_format = true := by
  constructor
  · show (format_for_id X "slurm".toList).isSome = true
    rw [format_for_id_eq]; rfl
  · show (format_for_id X "raw".toList).isSome = true
    rw [format_for_id_eq]; rfl

theorem main_of_options_ok (X : Externals) (opts : List Opt)
    (h : (parse_options X opts initial_settings).1.rc = 0) :
    ∃ parse unparse : format_t,
      format_for_id X (parse_options X opts initial_settings).1.from_format = some parse ∧
      format_for_id X (parse_options X opts initial_settings).1.to_format = some unparse ∧
      ∀ (values : List CString) (stdin : List (List Char)),
        main X opts values stdin =
          ((process_values (parse_options X opts initial_settings).1.globals parse unparse
              (parse_options X opts initial_settings).1.from_format
              (parse_options X opts initial_settings).1.to_format stdin values 0 false).1,
            (parse_options X opts initial_settings).2 ++
              (if (parse_options X opts initial_settings).1.is_quiet then [Event.freopen_stderr]
                else []) ++
              (process_values (parse_options X opts initial_settings).1.globals parse unparse
                (parse_options X opts initial_settings).1.from_format
                (parse_options X opts initial_settings).1.to_format stdin values 0 false).2) := by
  obtain ⟨hf, ht⟩ := parse_options_formats X opts initial_settings (initial_formats X)
  simp only [format_is_valid, Option.isSome_iff_exists] at hf ht
  obtain ⟨parse, hp⟩ := hf
  obtain ⟨unparse, hu⟩ := ht
  refine ⟨parse, unparse, hp, hu, ?_⟩
  intro values stdin
  simp only [main, h, if_true, hp, hu]

theorem main_of_options_failed (X : Externals) (opts : List Opt)
    (h : (parse_options X opts initial_settings).1.rc ≠ 0)
    (values : List CString) (stdin : List (List Char)) :
    main X opts values stdin =
      ((parse_options X opts initial_settings).1.rc, (parse_options X opts initial_settings).2) := by
  simp only [main, h, if_false]

theorem read_stdin_append (g : Globals) (parse unparse : format_t) (ff tf : CString)
    (ms : List (List Char)) : ∀ (ls : List (List Char)) (rc : Int),
    read_stdin g parse unparse ff tf (ls ++ ms) rc =
      ((read_stdin g parse unparse ff tf ms (read_stdin g parse unparse ff tf ls rc).1).1,
        (read_stdin g parse unparse ff tf ls rc).2 ++
          (read_stdin g parse unparse ff tf ms (read_stdin g parse unparse ff tf ls rc).1).2) := by
  intro ls
  induction ls with
  | nil => intro rc; simp [read_stdin]
  | cons l ls ih =>
    intro rc
    by_cases hrc : rc = 0
    · subst hrc
      rw [List.cons_append]
      simp only [read_stdin, ne_eq, not_true_eq_false, if_false]
      split_ifs with hl
      · rw [ih]; simp only [List.append_assoc]
      · rw [ih]
    · rw [read_stdin_stop _ _ _ _ _ _ _ hrc, read_stdin_stop _ _ _ _ _ _ _ hrc,
        read_stdin_stop _ _ _ _ _ _ _ hrc]
      rfl

theorem strcmp_hyphen (v : CString) : strcmp v ['-'] = 0 ↔ cstr v = ['-'] := by
  rw [strcmp_eq_zero_iff]; rfl

theorem process_values_append (g : Globals) (parse unparse : format_t) (ff tf : CString)
    (stdin : List (List Char)) (ws : List CString) : ∀ (vs : List CString) (rc : Int) (d : Bool),
    process_values g parse unparse ff tf stdin (vs ++ ws) rc d =
      ((process_values g parse unparse ff tf stdin ws
          (process_values g parse unparse ff tf stdin vs rc d).1
          (d || vs.any (fun v => decide (strcmp v ['-'] = 0)))).1,
        (process_values g parse unparse ff tf stdin vs rc d).2 ++
          (process_values g parse unparse ff tf stdin ws
            (process_values g parse unparse ff tf stdin vs rc d).1
            (d || vs.any (fun v => decide (strcmp v ['-'] = 0)))).2) := by
  intro vs
  induction vs with
  | nil => intro rc d; simp [process_values]
  | cons v vs ih =>
    intro rc d
    by_cases hrc : rc = 0
    · subst hrc
      rw [List.cons_append]
      simp only [process_values, ne_eq, not_true_eq_false, if_false, List.any_cons]
      split_ifs with h1 h2
      · rw [ih]
        simp only [h1, h2, decide_True, Bool.true_or, Bool.or_true, List.cons_append]
      · rw [ih]
        simp only [h1, decide_True, Bool.true_or, Bool.or_true, List.append_assoc]
      · rw [ih]
        simp only [h1, decide_False, Bool.false_or, List.append_assoc]
    · rw [process_values_stop _ _ _ _ _ _ _ _ _ hrc, process_values_stop _ _ _ _ _ _ _ _ _ hrc,
        process_values_stop _ _ _ _ _ _ _ _ _ hrc]
      rfl

theorem any_hyphen_of_literal (vs : List CString) (h : ∀ v ∈ vs, cstr v ≠ ['-']) :
    vs.any (fun v => decide (strcmp v ['-'] = 0)) = false := by
  rw [List.any_eq_false]
  intro v hv
  simp only [decide_eq_true_eq, strcmp_hyphen]
  exact h v hv

theorem process_values_literal_stdin (g : Globals) (parse unparse : format_t) (ff tf : CString)
    (stdin stdin2 : List (List Char)) : ∀ (vs : List CString) (rc : Int) (d : Bool),
    (∀ v ∈ vs, cstr v ≠ ['-']) →
    process_values g parse unparse ff tf stdin vs rc d =
      process_values g parse unparse ff tf stdin2 vs rc d := by
  intro vs
  induction vs with
  | nil => intro rc d _; rfl
  | cons v vs ih =>
    intro rc d h
    have hv : ¬ strcmp v ['-'] = 0 := by
      rw [strcmp_hyphen]; exact h v (List.mem_cons_self _ _)
    have hvs : ∀ w ∈ vs, cstr w ≠ ['-'] := fun w hw => h w (List.mem_cons_of_mem _ hw)
    simp only [process_values, hv, if_false]
    rw [ih _ _ hvs]

/-! ## An invalid format is fatal -/

theorem optarg_ok_of_unknown (X : Externals) (s : CString)
    (h : ∀ f ∈ formats_registry X, (cstr f.format_id).map tolower ≠ (cstr s).map tolower) :
    format_is_valid X s = false := by
  have e1 : (cstr (format_libc X).format_id).map tolower = "libc".toList :=
    show (cstr "libc".toList).map tolower = "libc".toList by decide
  have e2 : (cstr format_raw.format_id).map tolower = "raw".toList := by decide
  have e3 : (cstr (format_slurm X).format_id).map tolower = "slurm".toList :=
    show (cstr "slurm".toList).map tolower = "slurm".toList by decide
  have h1 := h (format_libc X) (by simp [formats_registry])
  have h2 := h format_raw (by simp [formats_registry])
  have h3 := h (format_slurm X) (by simp [formats_registry])
  rw [e1] at h1; rw [e2] at h2; rw [e3] at h3
  simp only [format_is_valid, format_for_id_eq, if_neg h1, if_neg h2, if_neg h3]
  rfl

/-- C3. A `--from`/`-F` or `--to`/`-T` option whose argument is missing,
empty or not the identifier of a registry entry (letter case ignored) makes
`main` fail at once and as a whole: it returns `EINVAL`, no parse or unparse
callback is called and no converted value is printed, and the run is the same
whatever the positional values and the lines of stdin are. -/
theorem invalid_format_is_fatal (X : Externals) (opts : List Opt) (values : List CString)
    (stdin : List (List Char)) (a : Option CString)
    (hmem : Opt.F a ∈ opts ∨ Opt.T a ∈ opts)
    (hbad : a = none ∨ a = some [] ∨ ∃ s, a = some s ∧
      ∀ f ∈ formats_registry X, (cstr f.format_id).map tolower ≠ (cstr s).map tolower) :
    (main X opts values stdin).1 = EINVAL
    ∧ (∀ e ∈ (main X opts values stdin).2, e.is_call = false ∧ ∀ output, e ≠ Event.printed output)
    ∧ main X opts values stdin = main X opts [] [] := by
  have hok : optarg_ok X a = false := by
    rcases hbad with rfl | rfl | ⟨s, rfl, hs⟩
    · rfl
    · rfl
    · simp [optarg_ok, optarg_ok_of_unknown X s hs]
  have hrc := parse_options_invalid X opts a hok hmem initial_settings rfl
  have hne : (parse_options X opts initial_settings).1.rc ≠ 0 := by
    rw [hrc]; exact EINVAL_ne_zero
  rw [main_of_options_failed X opts hne values stdin, main_of_options_failed X opts hne [] []]
  refine ⟨hrc, ?_, rfl⟩
  intro e he
  have := parse_options_events X opts initial_settings e he
  cases e <;> simp [Event.from_options] at this <;> simp [Event.is_call]

theorem invalid_format_is_fatal_witness :
    (main rejecting_externals [Opt.q, Opt.F (some "bogus".toList)] ["5".toList] []).1 = EINVAL
    ∧ (∀ e ∈ (main rejecting_externals [Opt.q, Opt.F (some "bogus".toList)] ["5".toList] []).2,
        e.is_call = false ∧ ∀ output, e ≠ Event.printed output)
    ∧ main rejecting_externals [Opt.q, Opt.F (some "bogus".toList)] ["5".toList] [] =
        main rejecting_externals [Opt.q, Opt.F (some "bogus".toList)] [] [] :=
  invalid_format_is_fatal rejecting_externals [Opt.q, Opt.F (some "bogus".toList)]
    ["5".toList] [] (some "bogus".toList) (Or.inl (by simp))
    (Or.inr (Or.inr ⟨"bogus".toList, rfl, by
      intro f hf
      simp only [formats_registry, List.mem_cons, List.mem_singleton, List.not_mem_nil,
        or_false] at hf
      rcases hf with rfl | rfl | rfl <;> decide⟩))

/-! ## A failed value ends the loop -/

/-- C1, as stated, fails: with `--from raw` and the values `x` and `5`, the
value `x` fails to parse and `5`, which converts when it is given alone, is
neither parsed nor printed; the same holds for the lines `x` and `5` of stdin. -/
theorem failed_value_aborts_counterexample :
    main rejecting_externals [Opt.F (some "raw".toList)] ["x".toList, "5".toList] [] =
      (EINVAL, [Event.call_parse "raw".toList "x".toList,
        Event.err_parse "x".toList "raw".toList])
    ∧ main rejecting_externals [Opt.F (some "raw".toList)] ["-".toList]
        ["x\n".toList, "5\n".toList] =
      (EINVAL, [Event.call_parse "raw".toList "x".toList,
        Event.err_parse "x".toList "raw".toList])
    ∧ main rejecting_externals [Opt.F (some "raw".toList)] ["5".toList] [] =
      (0, [Event.call_parse "raw".toList "5".toList,
        Event.call_unparse "raw".toList (Double.fin false 5 0),
        Event.printed "5".toList]) := by
  decide

theorem process_values_then_stdin (g : Globals) (parse unparse : format_t) (ff tf : CString)
    (stdin : List (List Char)) (values : List CString) (h : ∀ v ∈ values, cstr v ≠ ['-']) :
    process_values g parse unparse ff tf stdin (values ++ [['-']]) 0 false =
      ((read_stdin g parse unparse ff tf stdin
          (process_values g parse unparse ff tf [] values 0 false).1).1,
        (process_values g parse unparse ff tf [] values 0 false).2 ++
          (read_stdin g parse unparse ff tf stdin
            (process_values g parse unparse ff tf [] values 0 false).1).2) := by
  rw [process_values_append, any_hyphen_of_literal values h,
    process_values_literal_stdin g parse unparse ff tf stdin [] values 0 false h]
  by_cases ha : (process_values g parse unparse ff tf [] values 0 false).1 = 0
  · have hs : strcmp ['-'] ['-'] = 0 := by decide
    simp only [ha, process_values, hs, ne_eq, not_true_eq_false, if_false, if_true,
      Bool.or_self, Bool.false_eq_true, List.append_nil]
  · rw [process_values_stop _ _ _ _ _ _ _ _ _ ha, read_stdin_stop _ _ _ _ _ _ _ ha]

theorem process_values_failing_value (g : Globals) (parse unparse : format_t) (ff tf : CString)
    (stdin : List (List Char)) (values : List CString) (v : CString)
    (h0 : (process_values g parse unparse ff tf stdin values 0 false).1 = 0)
    (hv : cstr v ≠ ['-']) (hc : converts g parse unparse v = false) :
    (process_values g parse unparse ff tf stdin (values ++ [v]) 0 false).1 = EINVAL := by
  have hs : ¬ strcmp v ['-'] = 0 := by rw [strcmp_hyphen]; exact hv
  rw [process_values_append, h0]
  simp only [process_values, hs, ne_eq, not_true_eq_false, if_false,
    convert_value_of_not_converts g parse unparse ff tf v 0 hc]

theorem process_values_failing_line (g : Globals) (parse unparse : format_t) (ff tf : CString)
    (stdin : List (List Char)) (values : List CString) (l : List Char)
    (hlit : ∀ v ∈ values, cstr v ≠ ['-'])
    (h0 : (process_values g parse unparse ff tf stdin (values ++ [['-']]) 0 false).1 = 0)
    (hl : 0 < l.length) (hc : converts g parse unparse (trim_line l) = false) :
    (process_values g parse unparse ff tf (stdin ++ [l]) (values ++ [['-']]) 0 false).1
      = EINVAL := by
  rw [process_values_then_stdin _ _ _ _ _ _ _ hlit] at h0 ⊢
  simp only at h0 ⊢
  by_cases ha : (process_values g parse unparse ff tf [] values 0 false).1 = 0
  · rw [ha] at h0 ⊢
    rw [read_stdin_append, h0]
    simp only [read_stdin, hl, ne_eq, not_true_eq_false, if_false, if_true,
      convert_value_of_not_converts g parse unparse ff tf (trim_line l) 0 hc]
  · rw [read_stdin_stop _ _ _ _ _ _ _ ha] at h0
    exact absurd h0 ha

theorem process_values_after_failed_line (g : Globals) (parse unparse : format_t)
    (ff tf : CString) (stdin more : List (List Char)) (values post : List CString)
    (hlit : ∀ v ∈ values, cstr v ≠ ['-'])
    (h0 : (process_values g parse unparse ff tf stdin (values ++ [['-']]) 0 false).1 ≠ 0) :
    process_values g parse unparse ff tf (stdin ++ more) (values ++ ['-'] :: post) 0 false =
      process_values g parse unparse ff tf stdin (values ++ [['-']]) 0 false := by
  have key : process_values g parse unparse ff tf (stdin ++ more) (values ++ [['-']]) 0 false =
      process_values g parse unparse ff tf stdin (values ++ [['-']]) 0 false := by
    rw [process_values_then_stdin _ _ _ _ _ _ _ hlit] at h0 ⊢
    rw [process_values_then_stdin _ _ _ _ _ _ _ hlit]
    rw [read_stdin_append_of_failed _ _ _ _ _ _ _ _ h0]
  have e : values ++ ['-'] :: post = (values ++ [['-']]) ++ post := by simp
  rw [e, process_values_append_of_failed _ _ _ _ _ _ _ _ _ _ (by rw [key]; exact h0), key]

/-- C1, amended.  A value whose parse or unparse fails, a positional argument
or a line of stdin, sets the exit status to `EINVAL` and ends the loops: once
the exit status is set, the run (exit status, output, messages, callback
calls) is the same whatever positional arguments and whatever lines of stdin
follow, so that no later value is parsed or printed. -/
theorem failed_value_ends_the_loop (X : Externals) (opts : List Opt) (values : List CString)
    (stdin : List (List Char)) :
    (∀ (parse unparse : format_t) (v : CString),
        format_for_id X (parse_options X opts initial_settings).1.from_format = some parse →
        format_for_id X (parse_options X opts initial_settings).1.to_format = some unparse →
        (main X opts values stdin).1 = 0 → cstr v ≠ ['-'] →
        converts (parse_options X opts initial_settings).1.globals parse unparse v = false →
        (main X opts (values ++ [v]) stdin).1 = EINVAL)
    ∧ (∀ (parse unparse : format_t) (l : List Char),
        format_for_id X (parse_options X opts initial_settings).1.from_format = some parse →
        format_for_id X (parse_options X opts initial_settings).1.to_format = some unparse →
        (∀ v ∈ values, cstr v ≠ ['-']) →
        (main X opts (values ++ [['-']]) stdin).1 = 0 → 0 < l.length →
        converts (parse_options X opts initial_settings).1.globals parse unparse (trim_line l)
          = false →
        (main X opts (values ++ [['-']]) (stdin ++ [l])).1 = EINVAL)
    ∧ ((main X opts values stdin).1 ≠ 0 →
        ∀ post, main X opts (values ++ post) stdin = main X opts values stdin)
    ∧ ((∀ v ∈ values, cstr v ≠ ['-']) → (main X opts (values ++ [['-']]) stdin).1 ≠ 0 →
        ∀ more post, main X opts (values ++ ['-'] :: post) (stdin ++ more) =
          main X opts (values ++ [['-']]) stdin) := by
  by_cases hrc : (parse_options X opts initial_settings).1.rc = 0
  · obtain ⟨parse0, unparse0, hp, hu, hmain⟩ := main_of_options_ok X opts hrc
    simp only [hmain]
    refine ⟨?_, ?_, ?_, ?_⟩
    · intro parse unparse v hp2 hu2 h0 hv hc
      rw [hp] at hp2; rw [hu] at hu2
      cases hp2; cases hu2
      exact process_values_failing_value _ _ _ _ _ _ _ _ h0 hv hc
    · intro parse unparse l hp2 hu2 hlit h0 hl hc
      rw [hp] at hp2; rw [hu] at hu2
      cases hp2; cases hu2
      exact process_values_failing_line _ _ _ _ _ _ _ _ hlit h0 hl hc
    · intro h0 post
      rw [process_values_append_of_failed _ _ _ _ _ _ _ _ _ _ h0]
    · intro hlit h0 more post
      rw [process_values_after_failed_line _ _ _ _ _ _ _ _ _ hlit h0]
  · simp only [main_of_options_failed X opts hrc]
    refine ⟨?_, ?_, ?_, ?_⟩
    · intro _ _ _ _ _ h0; exact absurd h0 hrc
    · intro _ _ _ _ _ _ h0; exact absurd h0 hrc
    · intro _ _; trivial
    · intro _ _ _ _; trivial

/-! ## What the callbacks of the registry print -/

theorem registry_parse_events (X : Externals) (f : format_t) (hf : f ∈ formats_registry X)
    (g : Globals) (v : CString) :
    ∀ e ∈ (f.parse_fn g v).1,
      e.from_callback = true ∧ (g.is_debug = false → e.on_stdout = false) := by
  simp only [formats_registry, List.mem_cons, List.mem_singleton, List.not_mem_nil,
    or_false] at hf
  rcases hf with rfl | rfl | rfl
  · intro e he
    simp only [format_libc, string_to_seconds_libc] at he
    cases hm : g.is_duration_mode
    · cases hs : X.strptime_c v with
      | none => simp [hm, hs] at he
      | some bits =>
        cases hd : g.is_debug
        · simp only [hm, hs, hd, Bool.false_eq_true, if_false] at he
          split_ifs at he <;> simp at he
        · simp only [hm, hs, hd, Bool.false_eq_true, if_false, if_true] at he
          have : e = Event.debug_strptime bits := by
            split_ifs at he <;> simpa using he
          subst this
          exact ⟨rfl, fun h => absurd h (by decide)⟩
    · simp only [hm, if_true, List.mem_singleton] at he
      subst he; exact ⟨rfl, fun _ => rfl⟩
  · intro e he
    simp only [format_raw, string_to_seconds_raw] at he
    split_ifs at he <;> simp at he
  · intro e he
    simp only [format_slurm, string_to_seconds_slurm] at he
    split_ifs at he <;> simp at he

theorem registry_unparse_events (X : Externals) (f : format_t) (hf : f ∈ formats_registry X)
    (g : Globals) (s : Double) (n : Nat) :
    ∀ e ∈ (f.unparse_fn g s n).1,
      e.from_callback = true ∧ (g.is_debug = false → e.on_stdout = false) := by
  simp only [formats_registry, List.mem_cons, List.mem_singleton, List.not_mem_nil,
    or_false] at hf
  rcases hf with rfl | rfl | rfl
  · intro e he
    simp only [format_libc, seconds_to_string_libc] at he
    cases hm : g.is_duration_mode
    · cases hs : X.localtime_r s.toTimeT with
      | none => simp [hm, hs] at he
      | some bits =>
        cases hd : g.is_debug
        · simp only [hm, hs, hd, Bool.false_eq_true, if_false] at he
          split_ifs at he <;> simp at he
        · simp only [hm, hs, hd, Bool.false_eq_true, if_false, if_true] at he
          have : e = Event.debug_localtime_r bits := by
            split_ifs at he <;> simpa using he
          subst this
          exact ⟨rfl, fun h => absurd h (by decide)⟩
    · simp only [hm, if_true, List.mem_singleton] at he
      subst he; exact ⟨rfl, fun _ => rfl⟩
  · intro e he
    simp only [format_raw, seconds_to_string_raw] at he
    split_ifs at he <;> simp at he
  · intro e he
    simp only [format_slurm, seconds_to_string_slurm] at he
    split_ifs at he <;> simp at he

theorem parsed_values_append (a b : List Event) :
    parsed_values (a ++ b) = parsed_values a ++ parsed_values b := by
  induction a with
  | nil => rfl
  | cons e es ih => cases e <;> simp [parsed_values, ih]

theorem parsed_values_callback (l : List Event) (h : ∀ e ∈ l, e.from_callback = true) :
    parsed_values l = [] := by
  induction l with
  | nil => rfl
  | cons e es ih =>
    have he := h e (List.mem_cons_self _ _)
    have hes := ih (fun x hx => h x (List.mem_cons_of_mem _ hx))
    cases e <;> simp [Event.from_callback] at he <;> simp [parsed_values, hes]

theorem not_multiple_stdin_callback (l : List Event) (h : ∀ e ∈ l, e.from_callback = true) :
    Event.err_multiple_stdin ∉ l := by
  intro hmem
  have := h _ hmem
  simp [Event.from_callback] at this

theorem filter_stdout_silent (l : List Event) (h : ∀ e ∈ l, e.on_stdout = false) :
    l.filter Event.on_stdout = [] := by
  rw [List.filter_eq_nil_iff]
  intro e he
  rw [h e he]
  decide

theorem convert_value_events (X : Externals) (parse unparse : format_t)
    (hp : parse ∈ formats_registry X) (hu : unparse ∈ formats_registry X)
    (g : Globals) (ff tf v : CString) (rc : Int) (hc : converts g parse unparse v = true) :
    parsed_values (convert_value g parse unparse ff tf v rc).2 = [v]
    ∧ Event.err_multiple_stdin ∉ (convert_value g parse unparse ff tf v rc).2
    ∧ (g.is_debug = false → (convert_value g parse unparse ff tf v rc).2.filter Event.on_stdout
        = [Event.printed (rendered g parse unparse v)]) := by
  obtain ⟨seconds, _, hev⟩ := convert_value_of_converts g parse unparse ff tf v rc hc
  have h1 := registry_parse_events X parse hp g v
  have h2 := registry_unparse_events X unparse hu g seconds 128
  have p1 := parsed_values_callback _ (fun e he => (h1 e he).1)
  have p2 := parsed_values_callback _ (fun e he => (h2 e he).1)
  have d1 := not_multiple_stdin_callback _ (fun e he => (h1 e he).1)
  have d2 := not_multiple_stdin_callback _ (fun e he => (h2 e he).1)
  rw [hev]
  refine ⟨?_, ?_, ?_⟩
  · cases hd : g.is_debug <;>
      simp [parsed_values, parsed_values_append, p1, p2]
  · cases hd : g.is_debug <;> simp [d1, d2]
  · intro hd
    have s1 := filter_stdout_silent _ (fun e he => (h1 e he).2 hd)
    have s2 := filter_stdout_silent _ (fun e he => (h2 e he).2 hd)
    simp [hd, List.filter_cons, List.filter_append, s1, s2, Event.on_stdout]

theorem process_values_literal_of_ok (X : Externals) (parse unparse : format_t)
    (hp : parse ∈ formats_registry X) (hu : unparse ∈ formats_registry X)
    (g : Globals) (ff tf : CString) (stdin : List (List Char)) :
    ∀ (vs : List CString) (d : Bool), (∀ v ∈ vs, cstr v ≠ ['-']) →
    (process_values g parse unparse ff tf stdin vs 0 d).1 = 0 →
    (∀ v ∈ vs, converts g parse unparse v = true)
    ∧ parsed_values (process_values g parse unparse ff tf stdin vs 0 d).2 = vs
    ∧ Event.err_multiple_stdin ∉ (process_values g parse unparse ff tf stdin vs 0 d).2
    ∧ (g.is_debug = false →
        (process_values g parse unparse ff tf stdin vs 0 d).2.filter Event.on_stdout =
          vs.map (fun v => Event.printed (rendered g parse unparse v))) := by
  intro vs
  induction vs with
  | nil => intro d _ _; simp [process_values, parsed_values]
  | cons v vs ih =>
    intro d hlit h0
    have hv : ¬ strcmp v ['-'] = 0 := by
      rw [strcmp_hyphen]; exact hlit v (List.mem_cons_self _ _)
    have hvs : ∀ w ∈ vs, cstr w ≠ ['-'] := fun w hw => hlit w (List.mem_cons_of_mem _ hw)
    simp only [process_values, hv, if_false, ne_eq, not_true_eq_false] at h0 ⊢
    have hc : converts g parse unparse v = true := by
      by_contra hc
      have hc2 : converts g parse unparse v = false := by simpa using hc
      rw [convert_value_of_not_converts g parse unparse ff tf v 0 hc2,
        process_values_stop _ _ _ _ _ _ _ _ _ EINVAL_ne_zero] at h0
      exact EINVAL_ne_zero h0
    have hrc : (convert_value g parse unparse ff tf v 0).1 = 0 := by
      rw [convert_value_rc, hc]; rfl
    rw [hrc] at h0 ⊢
    obtain ⟨i1, i2, i3, i4⟩ := ih d hvs h0
    obtain ⟨c1, c2, c3⟩ := convert_value_events X parse unparse hp hu g ff tf v 0 hc
    refine ⟨?_, ?_, ?_, ?_⟩
    · intro w hw
      rcases List.mem_cons.mp hw with rfl | hw
      · exact hc
      · exact i1 w hw
    · rw [parsed_values_append, c1, i2]; rfl
    · intro hmem
      rcases List.mem_append.mp hmem with hm | hm
      · exact c2 hm
      · exact i3 hm
    · intro hd
      rw [List.filter_append, c3 hd, i4 hd]; rfl

theorem process_values_literal_converts (g : Globals) (parse unparse : format_t)
    (ff tf : CString) (stdin : List (List Char)) :
    ∀ (vs : List CString) (d : Bool), (∀ v ∈ vs, cstr v ≠ ['-']) →
    (∀ v ∈ vs, converts g parse unparse v = true) →
    (process_values g parse unparse ff tf stdin vs 0 d).1 = 0 := by
  intro vs
  induction vs with
  | nil => intro d _ _; rfl
  | cons v vs ih =>
    intro d hlit hc
    have hv : ¬ strcmp v ['-'] = 0 := by
      rw [strcmp_hyphen]; exact hlit v (List.mem_cons_self _ _)
    have hvs : ∀ w ∈ vs, cstr w ≠ ['-'] := fun w hw => hlit w (List.mem_cons_of_mem _ hw)
    have hrc : (convert_value g parse unparse ff tf v 0).1 = 0 := by
      rw [convert_value_rc, hc v (List.mem_cons_self _ _)]; rfl
    simp only [process_values, hv, if_false, ne_eq, not_true_eq_false, hrc]
    exact ih d hvs (fun w hw => hc w (List.mem_cons_of_mem _ hw))

theorem failed_value_ends_the_loop_witness :
    main rejecting_externals [Opt.F (some "raw".toList)] (["7".toList, "x".toList] ++
        ["5".toList, "-".toList]) ["1\n".toList] =
      main rejecting_externals [Opt.F (some "raw".toList)] ["7".toList, "x".toList]
        ["1\n".toList] :=
  (failed_value_ends_the_loop rejecting_externals [Opt.F (some "raw".toList)]
    ["7".toList, "x".toList] ["1\n".toList]).2.2.1 (by decide) ["5".toList, "-".toList]

/-! ## Literal values, in order -/

theorem option_step_debug (X : Externals) (st : Settings) (o : Opt) (h : o ≠ Opt.D) :
    (option_step X st o).1.globals.is_debug = st.globals.is_debug := by
  cases o <;> simp only [option_step] <;> first | (split_ifs <;> rfl) | rfl | exact absurd rfl h

theorem parse_options_debug (X : Externals) (opts : List Opt) (h : Opt.D ∉ opts) :
    ∀ st : Settings, (parse_options X opts st).1.globals.is_debug = st.globals.is_debug := by
  induction opts with
  | nil => intro st; rfl
  | cons o os ih =>
    intro st
    have ho : o ≠ Opt.D := fun e => h (e ▸ List.mem_cons_self _ _)
    have hos : Opt.D ∉ os := fun hm => h (List.mem_cons_of_mem _ hm)
    by_cases hrc : st.rc = 0
    · simp only [parse_options, hrc, ne_eq, not_true_eq_false, if_false]
      rw [ih hos, option_step_debug X st o ho]
    · rw [parse_options_stop X _ st hrc]

theorem option_step_silent (X : Externals) (st : Settings) (o : Opt) (h : o ≠ Opt.h)
    (hrc : (option_step X st o).1.rc = 0) : (option_step X st o).2 = [] := by
  cases o <;> simp only [option_step] at hrc ⊢ <;>
    first
    | exact absurd rfl h
    | (split_ifs at hrc ⊢ <;> first | rfl | exact absurd hrc EINVAL_ne_zero)

theorem parse_options_silent (X : Externals) (opts : List Opt) (h : Opt.h ∉ opts) :
    ∀ st : Settings, (parse_options X opts st).1.rc = 0 → (parse_options X opts st).2 = [] := by
  induction opts with
  | nil => intro st _; rfl
  | cons o os ih =>
    intro st hfin
    have ho : o ≠ Opt.h := fun e => h (e ▸ List.mem_cons_self _ _)
    have hos : Opt.h ∉ os := fun hm => h (List.mem_cons_of_mem _ hm)
    by_cases hrc : st.rc = 0
    · simp only [parse_options, hrc, ne_eq, not_true_eq_false, if_false] at hfin ⊢
      have hstep : (option_step X st o).1.rc = 0 := by
        by_contra hne
        rw [parse_options_stop X _ _ hne] at hfin
        exact hne hfin
      rw [option_step_silent X st o ho hstep, ih hos _ hfin]; rfl
    · rw [parse_options_stop X _ st hrc]

/-- C2, as stated, fails: with `--debug --from raw` and the single value `5`,
which converts, the exit status is 0 and the standard output holds two lines,
the debug line and the converted value. -/
theorem literal_values_debug_counterexample :
    converts { is_duration_mode := false, is_debug := true, is_real_output := false }
      format_raw format_raw "5".toList = true
    ∧ main rejecting_externals [Opt.D, Opt.F (some "raw".toList)] ["5".toList] [] =
      (0, [Event.call_parse "raw".toList "5".toList,
        Event.debug_parsed (Double.fin false 5 0),
        Event.call_unparse "raw".toList (Double.fin false 5 0),
        Event.printed "5".toList])
    ∧ (main rejecting_externals [Opt.D, Opt.F (some "raw".toList)] ["5".toList] []).2.filter
        Event.on_stdout =
      [Event.debug_parsed (Double.fin false 5 0), Event.printed "5".toList] := by
  decide

/-- C2, amended.  With options that end without error and select the formats
`parse` and `unparse`, without `--help` and without `--debug`, and with
literal positional values only: if every value converts, the exit status is 0
and the standard output is exactly one line per value, in argument order,
each the text `unparse_to(parse_from(value))`; the exit status is 0 if and
only if every value converts; and it is `EINVAL` otherwise. -/
theorem literal_values_in_order (X : Externals) (opts : List Opt) (values : List CString)
    (stdin : List (List Char)) (parse unparse : format_t)
    (hrc : (parse_options X opts initial_settings).1.rc = 0)
    (hparse : format_for_id X (parse_options X opts initial_settings).1.from_format = some parse)
    (hunparse : format_for_id X (parse_options X opts initial_settings).1.to_format
      = some unparse)
    (hh : Opt.h ∉ opts) (hD : Opt.D ∉ opts)
    (hlit : ∀ v ∈ values, cstr v ≠ ['-']) :
    ((∀ v ∈ values,
        converts (parse_options X opts initial_settings).1.globals parse unparse v = true) →
      (main X opts values stdin).1 = 0 ∧
      (main X opts values stdin).2.filter Event.on_stdout =
        values.map (fun v => Event.printed
          (rendered (parse_options X opts initial_settings).1.globals parse unparse v)))
    ∧ ((main X opts values stdin).1 = 0 ↔
        ∀ v ∈ values,
          converts (parse_options X opts initial_settings).1.globals parse unparse v = true)
    ∧ ((main X opts values stdin).1 ≠ 0 → (main X opts values stdin).1 = EINVAL) := by
  obtain ⟨parse0, unparse0, hp, hu, hmain⟩ := main_of_options_ok X opts hrc
  rw [hp] at hparse; rw [hu] at hunparse
  cases hparse; cases hunparse
  have hpm := format_for_id_mem X _ _ hp
  have hum := format_for_id_mem X _ _ hu
  have hdbg : (parse_options X opts initial_settings).1.globals.is_debug = false :=
    parse_options_debug X opts hD initial_settings
  have hsil := parse_options_silent X opts hh initial_settings hrc
  rw [hmain values stdin]
  simp only [hsil, List.nil_append]
  have hiff : (process_values (parse_options X opts initial_settings).1.globals parse unparse
      (parse_options X opts initial_settings).1.from_format
      (parse_options X opts initial_settings).1.to_format stdin values 0 false).1 = 0 ↔
      ∀ v ∈ values,
        converts (parse_options X opts initial_settings).1.globals parse unparse v = true :=
    ⟨fun h0 => (process_values_literal_of_ok X parse unparse hpm hum _ _ _ stdin values false
        hlit h0).1,
      fun hc => process_values_literal_converts _ parse unparse _ _ stdin values false hlit hc⟩
  refine ⟨?_, hiff, ?_⟩
  · intro hc
    have h0 := hiff.mpr hc
    refine ⟨h0, ?_⟩
    have h4 := (process_values_literal_of_ok X parse unparse hpm hum _ _ _ stdin values false
      hlit h0).2.2.2 hdbg
    rw [List.filter_append, h4]
    cases (parse_options X opts initial_settings).1.is_quiet <;> simp [Event.on_stdout]
  · intro hne
    rcases process_values_rc (parse_options X opts initial_settings).1.globals parse unparse
      (parse_options X opts initial_settings).1.from_format
      (parse_options X opts initial_settings).1.to_format stdin values 0 false with h | h
    · exact absurd h hne
    · exact h

theorem literal_values_in_order_witness :
    (main rejecting_externals [Opt.F (some "raw".toList), Opt.r]
      ["100".toList, "42".toList] []).1 = 0 ∧
    (main rejecting_externals [Opt.F (some "raw".toList), Opt.r]
      ["100".toList, "42".toList] []).2.filter Event.on_stdout =
      ["100".toList, "42".toList].map (fun v => Event.printed
        (rendered (parse_options rejecting_externals
          [Opt.F (some "raw".toList), Opt.r] initial_settings).1.globals
          format_raw format_raw v)) :=
  (literal_values_in_order rejecting_externals [Opt.F (some "raw".toList), Opt.r]
    ["100".toList, "42".toList] [] format_raw format_raw (by decide) rfl rfl
    (by decide) (by decide) (by decide)).1 (by decide)

/-! ## A second stdin argument -/

theorem read_stdin_of_ok (X : Externals) (parse unparse : format_t)
    (hp : parse ∈ formats_registry X) (hu : unparse ∈ formats_registry X)
    (g : Globals) (ff tf : CString) :
    ∀ (ls : List (List Char)), (read_stdin g parse unparse ff tf ls 0).1 = 0 →
    parsed_values (read_stdin g parse unparse ff tf ls 0).2 =
      (ls.filter (fun l => decide (0 < l.length))).map trim_line
    ∧ Event.err_multiple_stdin ∉ (read_stdin g parse unparse ff tf ls 0).2 := by
  intro ls
  induction ls with
  | nil => intro _; simp [read_stdin, parsed_values]
  | cons l ls ih =>
    intro h0
    by_cases hl : 0 < l.length
    · simp only [read_stdin, hl, if_true, ne_eq, not_true_eq_false, if_false] at h0 ⊢
      have hc : converts g parse unparse (trim_line l) = true := by
        by_contra hc
        have hc2 : converts g parse unparse (trim_line l) = false := by simpa using hc
        rw [convert_value_of_not_converts g parse unparse ff tf _ 0 hc2,
          read_stdin_stop _ _ _ _ _ _ _ EINVAL_ne_zero] at h0
        exact EINVAL_ne_zero h0
      have hrc : (convert_value g parse unparse ff tf (trim_line l) 0).1 = 0 := by
        rw [convert_value_rc, hc]; rfl
      rw [hrc] at h0 ⊢
      obtain ⟨i1, i2⟩ := ih h0
      obtain ⟨c1, c2, _⟩ := convert_value_events X parse unparse hp hu g ff tf (trim_line l) 0 hc
      refine ⟨?_, ?_⟩
      · rw [parsed_values_append, c1, i1]
        simp [List.filter_cons, hl]
      · intro hmem
        rcases List.mem_append.mp hmem with hm | hm
        · exact c2 hm
        · exact i2 hm
    · simp only [read_stdin, hl, if_false, ne_eq, not_true_eq_false] at h0 ⊢
      obtain ⟨i1, i2⟩ := ih h0
      refine ⟨?_, i2⟩
      rw [i1]
      simp [List.filter_cons, hl]

theorem process_values_stdin_of_ok (X : Externals) (parse unparse : format_t)
    (hp : parse ∈ formats_registry X) (hu : unparse ∈ formats_registry X)
    (g : Globals) (ff tf : CString) (stdin : List (List Char)) (pre mid : List CString)
    (hpre : ∀ v ∈ pre, cstr v ≠ ['-']) (hmid : ∀ v ∈ mid, cstr v ≠ ['-'])
    (h0 : (process_values g parse unparse ff tf stdin (pre ++ ['-'] :: mid) 0 false).1 = 0) :
    parsed_values (process_values g parse unparse ff tf stdin (pre ++ ['-'] :: mid) 0 false).2 =
      pre ++ (stdin.filter (fun l => decide (0 < l.length))).map trim_line ++ mid
    ∧ Event.err_multiple_stdin ∉
        (process_values g parse unparse ff tf stdin (pre ++ ['-'] :: mid) 0 false).2 := by
  have hs : strcmp ['-'] ['-'] = 0 := by decide
  rw [process_values_append, any_hyphen_of_literal pre hpre] at h0 ⊢
  simp only [Bool.or_self] at h0 ⊢
  have ha : (process_values g parse unparse ff tf stdin pre 0 false).1 = 0 := by
    by_contra hne
    rw [process_values_stop _ _ _ _ _ _ _ _ _ hne] at h0
    exact hne h0
  rw [ha] at h0 ⊢
  simp only [process_values, hs, ne_eq, not_true_eq_false, if_false, if_true,
    Bool.false_eq_true] at h0 ⊢
  have hr : (read_stdin g parse unparse ff tf stdin 0).1 = 0 := by
    by_contra hne
    rw [process_values_stop _ _ _ _ _ _ _ _ _ hne] at h0
    exact hne h0
  rw [hr] at h0 ⊢
  obtain ⟨a1, a2, a3, _⟩ := process_values_literal_of_ok X parse unparse hp hu g ff tf stdin
    pre false hpre ha
  obtain ⟨r1, r2⟩ := read_stdin_of_ok X parse unparse hp hu g ff tf stdin hr
  obtain ⟨m1, m2, m3, _⟩ := process_values_literal_of_ok X parse unparse hp hu g ff tf stdin
    mid true hmid h0
  refine ⟨?_, ?_⟩
  · rw [parsed_values_append, parsed_values_append, a2, r1, m2, List.append_assoc]
  · intro hmem
    rcases List.mem_append.mp hmem with hm | hm
    · exact a3 hm
    · rcases List.mem_append.mp hm with hm | hm
      · exact r2 hm
      · exact m3 hm

theorem process_values_second_stdin (g : Globals) (parse unparse : format_t)
    (ff tf : CString) (stdin : List (List Char)) (pre mid post : List CString)
    (h0 : (process_values g parse unparse ff tf stdin (pre ++ ['-'] :: mid) 0 false).1 = 0) :
    process_values g parse unparse ff tf stdin (pre ++ ['-'] :: (mid ++ ['-'] :: post)) 0 false =
      (EINVAL, (process_values g parse unparse ff tf stdin (pre ++ ['-'] :: mid) 0 false).2 ++
        [Event.err_multiple_stdin]) := by
  have hs : strcmp ['-'] ['-'] = 0 := by decide
  have e : pre ++ ['-'] :: (mid ++ ['-'] :: post) = (pre ++ ['-'] :: mid) ++ (['-'] :: post) := by
    simp
  have hany : (pre ++ ['-'] :: mid).any (fun v => decide (strcmp v ['-'] = 0)) = true := by
    simp [hs]
  rw [e, process_values_append, h0, hany]
  simp only [process_values, hs, ne_eq, not_true_eq_false, if_false, if_true, Bool.or_true,
    process_values_stop _ _ _ _ _ _ _ _ _ EINVAL_ne_zero]

theorem parsed_values_options (l : List Event) (h : ∀ e ∈ l, e.from_options = true) :
    parsed_values l = [] ∧ Event.err_multiple_stdin ∉ l := by
  constructor
  · induction l with
    | nil => rfl
    | cons e es ih =>
      have he := h e (List.mem_cons_self _ _)
      have hes := ih (fun x hx => h x (List.mem_cons_of_mem _ hx))
      cases e <;> simp [Event.from_options] at he <;> simp [parsed_values, hes]
  · intro hmem
    have := h _ hmem
    simp [Event.from_options] at this

/-- C8, as stated, fails: with `--from raw`, the arguments `-`, `-`, `7` and a
stdin of the one line `1`, the line is converted, the second `-` is reported
and the run ends with `EINVAL`; the argument `7`, which converts when it is
given alone, is neither parsed nor printed. -/
theorem second_stdin_counterexample :
    main rejecting_externals [Opt.F (some "raw".toList)]
        ["-".toList, "-".toList, "7".toList] ["1\n".toList] =
      (EINVAL, [Event.call_parse "raw".toList "1".toList,
        Event.call_unparse "raw".toList (Double.fin false 1 0),
        Event.printed "1".toList,
        Event.err_multiple_stdin])
    ∧ main rejecting_externals [Opt.F (some "raw".toList)] ["7".toList] ["1\n".toList] =
      (0, [Event.call_parse "raw".toList "7".toList,
        Event.call_unparse "raw".toList (Double.fin false 7 0),
        Event.printed "7".toList]) := by
  decide

/-- C8, amended.  When the positional values hold a second `-`, and the run
on the values before it ends with status 0 (the formats are valid, the values
before it and the lines of stdin all convert): the run is the run up to
that `-` followed by exactly one "cannot use stdin" error; the exit status is
`EINVAL`; stdin is read once, the values parsed being the arguments before the
first `-`, the trimmed lines of stdin and the arguments between the two `-`,
in this order; and no argument after the second `-` is parsed or printed. -/
theorem second_stdin_argument (X : Externals) (opts : List Opt) (pre mid post : List CString)
    (stdin : List (List Char))
    (hpre : ∀ v ∈ pre, cstr v ≠ ['-']) (hmid : ∀ v ∈ mid, cstr v ≠ ['-'])
    (hok : (main X opts (pre ++ ['-'] :: mid) stdin).1 = 0) :
    main X opts (pre ++ ['-'] :: (mid ++ ['-'] :: post)) stdin =
      (EINVAL, (main X opts (pre ++ ['-'] :: mid) stdin).2 ++ [Event.err_multiple_stdin])
    ∧ (main X opts (pre ++ ['-'] :: (mid ++ ['-'] :: post)) stdin).2.count
        Event.err_multiple_stdin = 1
    ∧ parsed_values (main X opts (pre ++ ['-'] :: (mid ++ ['-'] :: post)) stdin).2 =
        pre ++ (stdin.filter (fun l => decide (0 < l.length))).map trim_line ++ mid := by
  by_cases hrc : (parse_options X opts initial_settings).1.rc = 0
  · obtain ⟨parse, unparse, hp, hu, hmain⟩ := main_of_options_ok X opts hrc
    have hpm := format_for_id_mem X _ _ hp
    have hum := format_for_id_mem X _ _ hu
    rw [hmain] at hok
    simp only at hok
    have h2 := process_values_second_stdin _ parse unparse _ _ stdin pre mid post hok
    obtain ⟨s1, s2⟩ := process_values_stdin_of_ok X parse unparse hpm hum _ _ _ stdin pre mid
      hpre hmid hok
    obtain ⟨o1, o2⟩ := parsed_values_options _ (parse_options_events X opts initial_settings)
    have q1 : parsed_values (if (parse_options X opts initial_settings).1.is_quiet
        then [Event.freopen_stderr] else []) = [] := by
      split_ifs <;> rfl
    have q2 : Event.err_multiple_stdin ∉ (if (parse_options X opts initial_settings).1.is_quiet
        then [Event.freopen_stderr] else []) := by
      split_ifs <;> simp
    rw [hmain, hmain, h2]
    refine ⟨?_, ?_, ?_⟩
    · simp only [List.append_assoc]
    · simp only [List.count_append, List.count_eq_zero.mpr o2, List.count_eq_zero.mpr q2,
        List.count_eq_zero.mpr s2]
      rfl
    · simp only [parsed_values_append, o1, q1, s1, parsed_values, List.nil_append,
        List.append_nil]
  · rw [main_of_options_failed X opts hrc] at hok
    exact absurd hok hrc

theorem second_stdin_argument_witness :
    main rejecting_externals [Opt.F (some "raw".toList)]
        (["100".toList] ++ ['-'] :: (["5".toList] ++ ['-'] :: ["7".toList]))
        ["1\n".toList, "2\n".toList] =
      (EINVAL, (main rejecting_externals [Opt.F (some "raw".toList)]
        (["100".toList] ++ ['-'] :: ["5".toList]) ["1\n".toList, "2\n".toList]).2 ++
        [Event.err_multiple_stdin])
    ∧ (main rejecting_externals [Opt.F (some "raw".toList)]
        (["100".toList] ++ ['-'] :: (["5".toList] ++ ['-'] :: ["7".toList]))
        ["1\n".toList, "2\n".toList]).2.count Event.err_multiple_stdin = 1
    ∧ parsed_values (main rejecting_externals [Opt.F (some "raw".toList)]
        (["100".toList] ++ ['-'] :: (["5".toList] ++ ['-'] :: ["7".toList]))
        ["1\n".toList, "2\n".toList]).2 =
        ["100".toList] ++ (["1\n".toList, "2\n".toList].filter
          (fun l => decide (0 < l.length))).map trim_line ++ ["5".toList] :=
  second_stdin_argument rejecting_externals [Opt.F (some "raw".toList)]
    ["100".toList] ["5".toList] ["7".toList] ["1\n".toList, "2\n".toList]
    (by decide) (by decide) (by decide)

/-! ## Lines of stdin -/

theorem cstr_of_no_nul (line : List Char) (h : '\x00' ∉ line) : cstr line = line := by
  unfold cstr
  rw [List.takeWhile_eq_self_iff]
  intro c hc
  simp only [ne_eq, decide_not, Bool.not_eq_true', decide_eq_false_iff_not]
  rintro rfl
  exact h hc

theorem strtod_nil : strtod [] = (Double.fin false 0 0, 0) := by decide

/-- C9. A non-empty line read from stdin, without NUL, reaches the parse
callback as the line without its whole trailing run of white space, the
characters before that run unchanged: the line is the string passed followed
by white space only, the string passed does not end in white space, and the
first thing the loop does when it reaches the line is to call the parse
callback on that string.  A line of white space only becomes the empty string;
`string_to_seconds_raw` rejects the empty string; and with a `raw` from format
the line is reported as a parse error of the empty value, with `EINVAL`. -/
theorem stdin_line_is_trimmed (line : List Char) (hne : line ≠ []) (hnul : '\x00' ∉ line) :
    (∃ ws, line = trim_line line ++ ws ∧ (∀ c ∈ ws, isspace c = true) ∧
      ∀ c, (trim_line line).getLast? = some c → isspace c = false)
    ∧ (∀ (g : Globals) (parse unparse : format_t) (ff tf : CString) (rest : List (List Char)),
        (read_stdin g parse unparse ff tf (line :: rest) 0).2.head? =
          some (Event.call_parse parse.format_id (trim_line line)))
    ∧ ((∀ c ∈ line, isspace c = true) →
        trim_line line = []
        ∧ (∀ g : Globals, string_to_seconds_raw g [] = ([], none))
        ∧ ∀ (X : Externals) (opts : List Opt),
            (parse_options X opts initial_settings).1.rc = 0 →
            format_for_id X (parse_options X opts initial_settings).1.from_format
              = some format_raw →
            (main X opts [['-']] [line]).1 = EINVAL ∧
            (main X opts [['-']] [line]).2 =
              (parse_options X opts initial_settings).2 ++
              (if (parse_options X opts initial_settings).1.is_quiet
                then [Event.freopen_stderr] else []) ++
              [Event.call_parse "raw".toList [],
                Event.err_parse [] (parse_options X opts initial_settings).1.from_format]) := by
  have hlen : 0 < line.length := List.length_pos.mpr hne
  have htrim : trim_line line = (line.reverse.dropWhile isspace).reverse := by
    unfold trim_line; rw [cstr_of_no_nul line hnul]
  refine ⟨?_, ?_, ?_⟩
  · refine ⟨(line.reverse.takeWhile isspace).reverse, ?_, ?_, ?_⟩
    · rw [htrim, ← List.reverse_append, List.takeWhile_append_dropWhile, List.reverse_reverse]
    · intro c hc
      exact List.mem_takeWhile_imp (List.mem_reverse.mp hc)
    · intro c hc
      rw [htrim, List.getLast?_reverse] at hc
      have := List.head?_dropWhile_not isspace line.reverse
      rw [hc] at this
      exact this
  · intro g parse unparse ff tf rest
    simp only [read_stdin, hlen, if_true, ne_eq, not_true_eq_false, if_false]
    unfold convert_value
    simp only
    split
    · split_ifs <;> rfl
    · rfl
  · intro hws
    have hnil : trim_line line = [] := by
      rw [htrim, List.reverse_eq_nil_iff, List.dropWhile_eq_nil_iff]
      intro c hc
      exact hws c (List.mem_reverse.mp hc)
    have hraw : ∀ g : Globals, string_to_seconds_raw g [] = ([], none) := by
      intro g; simp [string_to_seconds_raw, strtod_nil]
    refine ⟨hnil, hraw, ?_⟩
    intro X opts hrc hfrom
    obtain ⟨parse, unparse, hp, hu, hmain⟩ := main_of_options_ok X opts hrc
    rw [hp] at hfrom
    cases hfrom
    have hs : strcmp ['-'] ['-'] = 0 := by decide
    have hconv : ∀ (g : Globals) (ff tf : CString),
        convert_value g format_raw unparse ff tf [] 0 =
          (EINVAL, [Event.call_parse "raw".toList [], Event.err_parse [] ff]) := by
      intro g ff tf
      simp only [convert_value, format_raw, hraw g, List.nil_append, List.cons_append]
    rw [hmain]
    simp only [process_values, hs, ne_eq, not_true_eq_false, if_false, if_true,
      Bool.false_eq_true, read_stdin, hlen, hnil, hconv,
      process_values_stop _ _ _ _ _ _ _ _ _ EINVAL_ne_zero,
      read_stdin_stop _ _ _ _ _ _ _ EINVAL_ne_zero, List.append_nil, and_self]

theorem stdin_line_is_trimmed_witness :
    (∃ ws, " 42 \t\n".toList = trim_line " 42 \t\n".toList ++ ws ∧
      (∀ c ∈ ws, isspace c = true) ∧
      ∀ c, (trim_line " 42 \t\n".toList).getLast? = some c → isspace c = false)
    ∧ trim_line " 42 \t\n".toList = " 42".toList :=
  ⟨(stdin_line_is_trimmed " 42 \t\n".toList (by decide) (by decide)).1, by decide⟩

/-! ## Decimal digits -/

theorem isdigit_digitChar (d : Nat) (h : d < 10) : isdigit (Nat.digitChar d) = true := by
  interval_cases d <;> decide

theorem digitVal_digitChar (d : Nat) (h : d < 10) : digitVal (Nat.digitChar d) = d := by
  interval_cases d <;> decide

theorem digitsValue_append (b : Nat) (l1 l2 : List Char) (acc : Nat) :
    digitsValue b acc (l1 ++ l2) = digitsValue b (digitsValue b acc l1) l2 := by
  induction l1 generalizing acc with
  | nil => rfl
  | cons c cs ih => rw [List.cons_append]; simp only [digitsValue, ih]

theorem toDigitsCore_acc (fuel : Nat) : ∀ (n : Nat) (ds : List Char),
    Nat.toDigitsCore 10 fuel n ds = Nat.toDigitsCore 10 fuel n [] ++ ds := by
  induction fuel with
  | zero => intro n ds; rfl
  | succ fuel ih =>
    intro n ds
    simp only [Nat.toDigitsCore]
    split_ifs with h
    · rfl
    · rw [ih (n / 10) (Nat.digitChar (n % 10) :: ds), ih (n / 10) [Nat.digitChar (n % 10)]]
      simp

theorem toDigitsCore_spec (fuel : Nat) : ∀ n : Nat, n < fuel →
    digitsValue 10 0 (Nat.toDigitsCore 10 fuel n []) = n
    ∧ (∀ c ∈ Nat.toDigitsCore 10 fuel n [], isdigit c = true)
    ∧ Nat.toDigitsCore 10 fuel n [] ≠ [] := by
  induction fuel with
  | zero => intro n h; omega
  | succ fuel ih =>
    intro n h
    have hd := Nat.mod_lt n (show 0 < 10 by decide)
    simp only [Nat.toDigitsCore]
    split_ifs with h0
    · refine ⟨?_, ?_, by simp⟩
      · simp only [digitsValue, digitVal_digitChar _ hd]
        omega
      · intro c hc
        simp only [List.mem_singleton] at hc
        subst hc; exact isdigit_digitChar _ hd
    · have hlt : n / 10 < fuel := by omega
      obtain ⟨i1, i2, i3⟩ := ih (n / 10) hlt
      rw [toDigitsCore_acc]
      refine ⟨?_, ?_, by simp [i3]⟩
      · rw [digitsValue_append, i1]
        simp only [digitsValue, digitVal_digitChar _ hd]
        omega
      · intro c hc
        rcases List.mem_append.mp hc with hc | hc
        · exact i2 c hc
        · simp only [List.mem_singleton] at hc
          subst hc; exact isdigit_digitChar _ hd

theorem decimal_spec (n : Nat) :
    digitsValue 10 0 (decimal n) = n ∧ (∀ c ∈ decimal n, isdigit c = true) ∧ decimal n ≠ [] :=
  toDigitsCore_spec (n + 1) n (Nat.lt_succ_self n)

theorem fixedDigits_spec (w : Nat) : ∀ x : Nat,
    (fixedDigits w x).length = w ∧ (∀ c ∈ fixedDigits w x, isdigit c = true)
    ∧ ∀ acc, digitsValue 10 acc (fixedDigits w x) = acc * 10 ^ w + x % 10 ^ w := by
  induction w with
  | zero => intro x; simp [fixedDigits, digitsValue, Nat.mod_one]
  | succ w ih =>
    intro x
    have hd := Nat.mod_lt x (show 0 < 10 by decide)
    obtain ⟨i1, i2, i3⟩ := ih (x / 10)
    refine ⟨by simp [fixedDigits, i1], ?_, ?_⟩
    · intro c hc
      simp only [fixedDigits, List.mem_append, List.mem_singleton] at hc
      rcases hc with hc | hc
      · exact i2 c hc
      · subst hc; exact isdigit_digitChar _ hd
    · intro acc
      simp only [fixedDigits, digitsValue_append, i3, digitsValue, digitVal_digitChar _ hd]
      have e : x % 10 ^ (w + 1) = (x / 10 % 10 ^ w) * 10 + x % 10 := by
        rw [pow_succ, Nat.mul_comm, Nat.mod_mul]
        omega
      rw [e, pow_succ]
      ring

/-! ## strtod on the text of a fixed-point rendering -/

theorem takeWhile_append_stop (p : Char → Bool) (l r : List Char)
    (hl : ∀ c ∈ l, p c = true) (hr : ∀ c, r.head? = some c → p c = false) :
    (l ++ r).takeWhile p = l ∧ (l ++ r).dropWhile p = r := by
  induction l with
  | nil =>
    cases r with
    | nil => simp
    | cons x xs =>
      have := hr x rfl
      simp [List.takeWhile_cons, List.dropWhile_cons, this]
  | cons c cs ih =>
    have hc := hl c (List.mem_cons_self _ _)
    obtain ⟨i1, i2⟩ := ih (fun x hx => hl x (List.mem_cons_of_mem _ hx))
    simp [List.takeWhile_cons, List.dropWhile_cons, hc, i1, i2]

theorem tolower_digit (c : Char) (h : isdigit c = true) : tolower c = c := by
  unfold tolower
  split <;> first | rfl | (exact absurd h (by decide))

theorem tolower_of_digit_or_dot (c : Char) (h : isdigit c = true ∨ c = '.') :
    tolower c ≠ 'x' ∧ tolower c ≠ 'e' := by
  rcases h with h | rfl
  · rw [tolower_digit c h]
    constructor <;> (rintro rfl; exact absurd h (by decide))
  · constructor <;> decide

theorem scan_text (neg : Bool) (ip fp : List Char) (dot : Bool)
    (hip : ∀ c ∈ ip, isdigit c = true) (hne : ip ≠ [])
    (hfp : ∀ c ∈ fp, isdigit c = true) (hdot : dot = false → fp = []) :
    scanHex neg (ip ++ (if dot then '.' :: fp else [])) = none
    ∧ scanDecimal neg (ip ++ (if dot then '.' :: fp else [])) =
        some (scaled neg (digitsValue 10 0 (ip ++ fp)) 10 (0 - (fp.length : Int)),
          ip.length + (if dot then 1 else 0) + fp.length + 0) := by
  have htail : ∀ c, (if dot then '.' :: fp else []).head? = some c → isdigit c = false := by
    intro c hc
    cases dot with
    | false => simp at hc
    | true =>
      simp only [if_true, List.head?_cons, Option.some.injEq] at hc
      subst hc; decide
  obtain ⟨t1, t2⟩ := takeWhile_append_stop isdigit ip _ hip htail
  have tf : fp.takeWhile isdigit = fp := by
    have := (takeWhile_append_stop isdigit fp [] hfp (by simp)).1
    simpa using this
  constructor
  · cases ip with
    | nil => exact absurd rfl hne
    | cons c cs =>
      have hc := hip c (List.mem_cons_self _ _)
      cases cs with
      | nil =>
        cases dot with
        | false => simp [scanHex]
        | true =>
          simp only [List.cons_append, List.nil_append, if_true, scanHex]
          split
          · rename_i heq
            simp only [List.cons.injEq] at heq
            obtain ⟨_, rfl, _⟩ := heq
            simp [(tolower_of_digit_or_dot '.' (Or.inr rfl)).1]
          · rfl
      | cons c2 cs2 =>
        have hc2 := hip c2 (List.mem_cons_of_mem _ (List.mem_cons_self _ _))
        simp only [List.cons_append, scanHex]
        split
        · rename_i heq
          simp only [List.cons.injEq] at heq
          obtain ⟨_, rfl, _⟩ := heq
          simp [(tolower_of_digit_or_dot _ (Or.inl hc2)).1]
        · rfl
  · unfold scanDecimal
    simp only [t1, t2]
    cases dot with
    | false =>
      have hfp0 := hdot rfl
      subst hfp0
      simp [hne, scanExponent]
    | true =>
      have hdrop : List.drop (1 + fp.length) ('.' :: fp) = [] :=
        List.drop_eq_nil_of_le (by simp only [List.length_cons]; omega)
      simp only [if_true, tf]
      simp [hne, scanExponent, hdrop]

theorem digit_not_special (c : Char) (h : isdigit c = true) :
    isspace c = false ∧ c ≠ '-' ∧ c ≠ '+' := by
  refine ⟨?_, ?_, ?_⟩
  · cases hs : isspace c with
    | false => rfl
    | true =>
      simp only [isspace, Bool.or_eq_true, decide_eq_true_eq] at hs
      rcases hs with ((((rfl | rfl) | rfl) | rfl) | rfl) | rfl <;> exact absurd h (by decide)
  · rintro rfl; exact absurd h (by decide)
  · rintro rfl; exact absurd h (by decide)

theorem strtod_text (neg : Bool) (ip fp : List Char) (dot : Bool)
    (hip : ∀ c ∈ ip, isdigit c = true) (hne : ip ≠ [])
    (hfp : ∀ c ∈ fp, isdigit c = true) (hdot : dot = false → fp = []) :
    strtod ((if neg then ['-'] else []) ++ (ip ++ (if dot then '.' :: fp else []))) =
      (scaled neg (digitsValue 10 0 (ip ++ fp)) 10 (0 - (fp.length : Int)),
        ((if neg then ['-'] else []) ++ (ip ++ (if dot then '.' :: fp else []))).length) := by
  obtain ⟨h1, h2⟩ := scan_text neg ip fp dot hip hne hfp hdot
  cases neg with
  | true =>
    have hsp : isspace '-' = false := by decide
    simp only [if_true, List.cons_append, List.nil_append, strtod, List.takeWhile_cons,
      List.dropWhile_cons, hsp, Bool.false_eq_true, if_false, List.length_nil, List.drop_one,
      List.tail_cons, h1, h2, Option.orElse, List.length_cons, List.length_append]
    congr 1
    cases dot with
    | false => have := hdot rfl; subst this; simp; try omega
    | true => simp only [if_true, List.length_cons]; omega
  | false =>
    cases ip with
    | nil => exact absurd rfl hne
    | cons c cs =>
      obtain ⟨d1, d2, d3⟩ := digit_not_special c (hip c (List.mem_cons_self _ _))
      have e1 : (match c :: (cs ++ if dot = true then '.' :: fp else []) with
          | '-' :: _ => true
          | _ => false) = false := by
        split
        · rename_i heq; simp only [List.cons.injEq] at heq; exact absurd heq.1 d2
        · rfl
      have e2 : (match c :: (cs ++ if dot = true then '.' :: fp else []) with
          | '-' :: _ => 1
          | '+' :: _ => 1
          | _ => 0) = 0 := by
        split
        · rename_i heq; simp only [List.cons.injEq] at heq; exact absurd heq.1 d2
        · rename_i heq; simp only [List.cons.injEq] at heq; exact absurd heq.1 d3
        · rfl
      simp only [List.cons_append] at h1 h2
      simp only [Bool.false_eq_true, if_false, List.nil_append, List.cons_append, strtod,
        List.takeWhile_cons, List.dropWhile_cons, d1, List.length_nil, e1, e2, List.drop_zero,
        h1, h2, Option.orElse, List.length_cons, List.length_append]
      congr 1
      cases dot with
      | false => have := hdot rfl; subst this; simp; try omega
      | true => simp only [if_true, List.length_cons]; omega

theorem strtod_formatFixed (prec : Nat) (neg : Bool) (num k : Nat) :
    strtod (formatFixed prec (Double.fin neg num k)) =
      (scaled neg (roundHalfEven (num * 10 ^ prec) (2 ^ k)) 10 (0 - (prec : Int)),
        (formatFixed prec (Double.fin neg num k)).length)
    ∧ 0 < (formatFixed prec (Double.fin neg num k)).length := by
  obtain ⟨v1, v2, v3⟩ := decimal_spec (roundHalfEven (num * 10 ^ prec) (2 ^ k) / 10 ^ prec)
  obtain ⟨f1, f2, f3⟩ := fixedDigits_spec prec (roundHalfEven (num * 10 ^ prec) (2 ^ k) % 10 ^ prec)
  have hpos : 0 < (formatFixed prec (Double.fin neg num k)).length := by
    simp only [formatFixed, List.length_append]
    have := List.length_pos.mpr v3
    omega
  refine ⟨?_, hpos⟩
  by_cases hp : prec = 0
  · subst hp
    have key := strtod_text neg (decimal (roundHalfEven (num * 10 ^ 0) (2 ^ k) / 10 ^ 0)) []
      false v2 v3 (by simp) (fun _ => rfl)
    simp only [pow_zero, Nat.div_one] at v1
    simp only [Bool.false_eq_true, if_false, List.append_nil, List.length_nil, Nat.cast_zero,
      pow_zero, Nat.div_one] at key
    rw [v1] at key
    simp only [formatFixed, if_true, List.append_nil, pow_zero, Nat.div_one, Nat.cast_zero]
    exact key
  · have key := strtod_text neg (decimal (roundHalfEven (num * 10 ^ prec) (2 ^ k) / 10 ^ prec))
      (fixedDigits prec (roundHalfEven (num * 10 ^ prec) (2 ^ k) % 10 ^ prec)) true
      v2 v3 f2 (fun h => absurd h (by decide))
    have hval : digitsValue 10 0
        (decimal (roundHalfEven (num * 10 ^ prec) (2 ^ k) / 10 ^ prec) ++
          fixedDigits prec (roundHalfEven (num * 10 ^ prec) (2 ^ k) % 10 ^ prec)) =
        roundHalfEven (num * 10 ^ prec) (2 ^ k) := by
      rw [digitsValue_append, v1, f3, Nat.mod_mod]
      exact Nat.div_add_mod' _ _
    simp only [if_true, hval, f1] at key
    simp only [formatFixed, hp, if_false, List.append_assoc]
    exact key

theorem string_to_seconds_raw_formatFixed (g : Globals) (prec : Nat) (neg : Bool) (num k : Nat) :
    string_to_seconds_raw g (formatFixed prec (Double.fin neg num k)) =
      ([], some (scaled neg (roundHalfEven (num * 10 ^ prec) (2 ^ k)) 10 (0 - (prec : Int)))) := by
  obtain ⟨h1, h2⟩ := strtod_formatFixed prec neg num k
  simp only [string_to_seconds_raw, h1, h2, if_true]

/-! ## Rounding to a double -/

theorem roundHalfEven_one (P : Nat) : roundHalfEven P 1 = P := by
  simp [roundHalfEven, Nat.mod_one]

theorem roundToDouble_scale (neg : Bool) (n c : Nat) (hc : 0 < c) :
    roundToDouble neg (n * c) c = roundToDouble neg n 1 := by
  by_cases hn : n = 0
  · subst hn; simp [roundToDouble]
  · have hnc : n * c ≠ 0 := Nat.mul_ne_zero hn (Nat.pos_iff_ne_zero.mp hc)
    have g1 : Nat.gcd (n * c) c = c := Nat.gcd_eq_right (Nat.dvd_mul_left c n)
    have g2 : Nat.gcd n 1 = 1 := Nat.gcd_one_right n
    simp only [roundToDouble, hn, hnc, if_false, g1, g2, Nat.mul_div_cancel _ hc,
      Nat.div_self hc, Nat.div_one]

theorem reduceDyadic_mul_pow (j : Nat) : ∀ n : Nat, reduceDyadic (n * 2 ^ j) j = (n, 0) := by
  induction j with
  | zero => intro n; simp [reduceDyadic]
  | succ j ih =>
    intro n
    have h1 : n * 2 ^ (j + 1) % 2 = 0 := by rw [pow_succ, ← Nat.mul_assoc]; simp
    have h2 : n * 2 ^ (j + 1) / 2 = n * 2 ^ j := by
      rw [pow_succ, ← Nat.mul_assoc]; simp
    simp only [reduceDyadic, h1, if_true, h2, ih]

theorem bitLength_le (f : Nat) : ∀ (n k : Nat), n < 2 ^ k → bitLength f n ≤ k := by
  induction f with
  | zero => intro n k _; simp [bitLength]
  | succ f ih =>
    intro n k h
    simp only [bitLength]
    split_ifs with h0
    · omega
    · cases k with
      | zero => simp at h; exact absurd h h0
      | succ k =>
        have : n / 2 < 2 ^ k := by
          rw [pow_succ] at h; omega
        have := ih (n / 2) k this
        omega

theorem bitLength_one : bitLength 1 1 = 1 := by decide

theorem roundToDouble_exact (neg : Bool) (n : Nat) (h : n < 2 ^ 53) :
    roundToDouble neg n 1 = Double.fin neg n 0 := by
  by_cases hn : n = 0
  · subst hn; simp [roundToDouble]
  · have hb := bitLength_le n n 53 h
    have hfl : floorLog2 n 1 ≤ 52 := by
      simp only [floorLog2, bitLength_one]
      split_ifs <;> omega
    have hfl2 : -2 ≤ floorLog2 n 1 := by
      simp only [floorLog2, bitLength_one]
      split_ifs <;> omega
    have he : max (floorLog2 n 1 - 52) (-1074) = floorLog2 n 1 - 52 := by
      apply max_eq_left; omega
    simp only [roundToDouble, hn, if_false, Nat.gcd_one_right, Nat.div_one, he]
    by_cases h0 : 0 ≤ floorLog2 n 1 - 52
    · have e0 : floorLog2 n 1 - 52 = 0 := by omega
      simp [e0, roundHalfEven_one]
    · have hlt : ¬ (971 : Int) < floorLog2 n 1 - 52 := by omega
      have hne : ¬ floorLog2 n 1 - 52 = 971 := by omega
      simp only [h0, if_false, roundHalfEven_one, reduceDyadic_mul_pow, hlt, hne,
        decide_False, Bool.false_and, Bool.or_self, Bool.false_eq_true]

/-! ## The raw format -/

theorem seconds_to_string_raw_of_fits (g : Globals) (d : Double)
    (h : (formatFixed (if g.is_real_output then 3 else 0) d).length < 128) :
    seconds_to_string_raw g d 128 =
      ([], true, formatFixed (if g.is_real_output then 3 else 0) d) := by
  have hne : ¬ (formatFixed (if g.is_real_output then 3 else 0) d).length = 128 := by omega
  have htake : (formatFixed (if g.is_real_output then 3 else 0) d).take (128 - 1) =
      formatFixed (if g.is_real_output then 3 else 0) d :=
    List.take_of_length_le (by omega)
  simp only [seconds_to_string_raw, snprintf, hne, if_false, htake]

theorem formatFixed_nat (n : Nat) :
    formatFixed 0 (Double.fin false n 0) = decimal n
    ∧ formatFixed 3 (Double.fin false n 0) = decimal n ++ ".000".toList := by
  constructor
  · simp [formatFixed, roundHalfEven_one]
  · have h1 : n * 10 ^ 3 / 10 ^ 3 = n := Nat.mul_div_cancel _ (by decide)
    have h2 : n * 10 ^ 3 % 10 ^ 3 = 0 := Nat.mul_mod_left _ _
    have h3 : fixedDigits 3 0 = ['0', '0', '0'] := by decide
    simp only [formatFixed, roundHalfEven_one, pow_zero, h1, h2, h3, Bool.false_eq_true,
      if_false, List.nil_append]
    rfl

/-- C4 at a failing input: the double `2 ^ 426` renders under `%.0lf` as 129
characters, which do not fit in the 128-byte buffer, yet
`seconds_to_string_raw` returns true, and `main`, given `0x1p426` with
`--from raw`, prints the first 127 characters and exits with 0.  The failure
is reported only at exactly 128 characters, as for `2 ^ 423`. -/
theorem raw_overlong_text_accepted :
    (formatFixed 0 (Double.fin false (2 ^ 426) 0)).length = 129
    ∧ seconds_to_string_raw default_globals (Double.fin false (2 ^ 426) 0) 128 =
        ([], true, (decimal (2 ^ 426)).take 127)
    ∧ main rejecting_externals [Opt.F (some "raw".toList)] ["0x1p426".toList] [] =
        (0, [Event.call_parse "raw".toList "0x1p426".toList,
          Event.call_unparse "raw".toList (Double.fin false (2 ^ 426) 0),
          Event.printed ((decimal (2 ^ 426)).take 127)])
    ∧ (formatFixed 0 (Double.fin false (2 ^ 423) 0)).length = 128
    ∧ (seconds_to_string_raw default_globals (Double.fin false (2 ^ 423) 0) 128).2.1 = false := by
  decide!

/-- C6, as stated, fails.  The integer `2 ^ 53 + 1`, of 16 digits, is not a
double: its text parses to `2 ^ 53`, and `main` prints `9007199254740992` for
the input `9007199254740993`.  And the integer `2 ^ 410`, of 124 digits, which
is a double: in real-output mode its text with `.000` is 128 characters long
and `seconds_to_string_raw` returns false. -/
theorem raw_decimal_integer_counterexample :
    (decimal 9007199254740993).length = 16
    ∧ string_to_seconds_raw default_globals (decimal 9007199254740993) =
        ([], some (Double.fin false 9007199254740992 0))
    ∧ main rejecting_externals [Opt.F (some "raw".toList)] ["9007199254740993".toList] [] =
        (0, [Event.call_parse "raw".toList "9007199254740993".toList,
          Event.call_unparse "raw".toList (Double.fin false 9007199254740992 0),
          Event.printed "9007199254740992".toList])
    ∧ (decimal (2 ^ 410)).length = 124
    ∧ string_to_seconds_raw reals_globals (decimal (2 ^ 410)) =
        ([], some (Double.fin false (2 ^ 410) 0))
    ∧ (seconds_to_string_raw reals_globals (Double.fin false (2 ^ 410) 0) 128).2.1 = false := by
  decide!

/-- C6, amended.  For every non-negative integer `n` that is a double (the
double nearest to `n` is `n`; every `n < 2 ^ 53` is one) and whose decimal
text is shorter than 128 characters: `string_to_seconds_raw` on the decimal
text of `n` succeeds with seconds `n`; in integer mode
`seconds_to_string_raw` on `n` succeeds and writes the decimal text of `n`;
in real-output mode, when that text followed by `.000` is still shorter than
128 characters, it succeeds and writes the text followed by `.000`.  So with
`--from raw --to raw` the input `100` prints `100`, or `100.000` with
`--reals`, and `42` parses to 42.0 and renders as `42` or `42.000`. -/
theorem raw_decimal_integer (g : Globals) (n : Nat)
    (hexact : roundToDouble false n 1 = Double.fin false n 0)
    (hlen : (decimal n).length < 128) :
    string_to_seconds_raw g (decimal n) = ([], some (Double.fin false n 0))
    ∧ (g.is_real_output = false →
        seconds_to_string_raw g (Double.fin false n 0) 128 = ([], true, decimal n))
    ∧ (g.is_real_output = true → (decimal n ++ ".000".toList).length < 128 →
        seconds_to_string_raw g (Double.fin false n 0) 128 =
          ([], true, decimal n ++ ".000".toList))
    ∧ (∀ m : Nat, m < 2 ^ 53 → roundToDouble false m 1 = Double.fin false m 0)
    ∧ main rejecting_externals [Opt.F (some "raw".toList), Opt.T (some "raw".toList)]
        ["100".toList] [] =
        (0, [Event.call_parse "raw".toList "100".toList,
          Event.call_unparse "raw".toList (Double.fin false 100 0),
          Event.printed "100".toList])
    ∧ main rejecting_externals [Opt.F (some "raw".toList), Opt.T (some "raw".toList), Opt.r]
        ["100".toList] [] =
        (0, [Event.call_parse "raw".toList "100".toList,
          Event.call_unparse "raw".toList (Double.fin false 100 0),
          Event.printed "100.000".toList])
    ∧ string_to_seconds_raw g "42".toList = ([], some (Double.fin false 42 0))
    ∧ seconds_to_string_raw default_globals (Double.fin false 42 0) 128 =
        ([], true, "42".toList)
    ∧ seconds_to_string_raw reals_globals (Double.fin false 42 0) 128 =
        ([], true, "42.000".toList) := by
  obtain ⟨f0, f3⟩ := formatFixed_nat n
  refine ⟨?_, ?_, ?_, fun m hm => roundToDouble_exact false m hm, by decide, by decide, ?_,
    by decide, by decide⟩
  · have := string_to_seconds_raw_formatFixed g 0 false n 0
    rw [f0] at this
    rw [this]
    simp [scaled, roundHalfEven_one, hexact]
  · intro hg
    have := seconds_to_string_raw_of_fits g (Double.fin false n 0)
      (by simp only [hg, Bool.false_eq_true, if_false, f0]; exact hlen)
    simpa only [hg, Bool.false_eq_true, if_false, f0] using this
  · intro hg hfit
    have := seconds_to_string_raw_of_fits g (Double.fin false n 0)
      (by simp only [hg, if_true, f3]; exact hfit)
    simpa only [hg, if_true, f3] using this
  · have h42 : strtod "42".toList = (Double.fin false 42 0, 2) := by decide
    unfold string_to_seconds_raw
    rw [h42]
    rfl

theorem raw_decimal_integer_witness :
    string_to_seconds_raw reals_globals (decimal 86400) = ([], some (Double.fin false 86400 0))
    ∧ decimal 86400 = "86400".toList :=
  ⟨(raw_decimal_integer reals_globals 86400 (by decide) (by decide)).1, by decide⟩

/-- C5, as stated, fails.  For `raw`: the double `2 ^ 426` is rendered
successfully in integer mode (129 characters, cut to 127 in the buffer) and
the rendered text parses to another value.  For `slurm`: the seconds pass
through `(time_t)`, so 1.75 and 1 are rendered alike, and with no
implementation of the Slurm routines does the rendered text parse back to
1.75 for the one and to 1 for the other, as real-output mode would need. -/
theorem round_trip_counterexample :
    (seconds_to_string_raw default_globals (Double.fin false (2 ^ 426) 0) 128).2.1 = true
    ∧ (string_to_seconds_raw default_globals
        (seconds_to_string_raw default_globals (Double.fin false (2 ^ 426) 0) 128).2.2).2 ≠
        some (Double.fin false (2 ^ 426) 0)
    ∧ roundedToDecimals 3 (Double.fin false 7 2) = Double.fin false 7 2
    ∧ roundedToDecimals 3 (Double.fin false 1 0) = Double.fin false 1 0
    ∧ ¬ ∃ X : Externals, ∀ s ∈ [Double.fin false 1 0, Double.fin false 7 2],
        (seconds_to_string_slurm X reals_globals s 128).2.1 = true ∧
        (string_to_seconds_slurm X reals_globals
          (seconds_to_string_slurm X reals_globals s 128).2.2).2 =
          some (roundedToDecimals 3 s) := by
  refine ⟨by decide!, by decide!, by decide!, by decide!, ?_⟩
  rintro ⟨X, h⟩
  have h1 := (h (Double.fin false 1 0) (by simp)).2
  have h2 := (h (Double.fin false 7 2) (by simp)).2
  have e : seconds_to_string_slurm X reals_globals (Double.fin false 7 2) 128 =
      seconds_to_string_slurm X reals_globals (Double.fin false 1 0) 128 := rfl
  rw [e, h1] at h2
  have e1 : roundedToDecimals 3 (Double.fin false 7 2) = Double.fin false 7 2 := by decide!
  have e2 : roundedToDecimals 3 (Double.fin false 1 0) = Double.fin false 1 0 := by decide!
  rw [e1, e2] at h2
  exact absurd h2 (by decide)

/-- C5, amended, for the `raw` format.  For every finite seconds value whose
text under `%.0lf` (integer mode) or `%.3lf` (real-output mode) is shorter
than 128 characters: `seconds_to_string_raw` succeeds and leaves that text in
the buffer; `string_to_seconds_raw` on the text succeeds and yields the value
rounded to whole seconds, respectively to 3 decimals (ties to even), as the
nearest double; and this is the value itself when it is an integer that is a
double, that is, already at that precision. -/
theorem raw_round_trip (g : Globals) (neg : Bool) (num k : Nat)
    (hfit : (formatFixed (if g.is_real_output then 3 else 0) (Double.fin neg num k)).length
      < 128) :
    seconds_to_string_raw g (Double.fin neg num k) 128 =
      ([], true, formatFixed (if g.is_real_output then 3 else 0) (Double.fin neg num k))
    ∧ string_to_seconds_raw g
        (formatFixed (if g.is_real_output then 3 else 0) (Double.fin neg num k)) =
      ([], some (roundedToDecimals (if g.is_real_output then 3 else 0) (Double.fin neg num k)))
    ∧ (k = 0 → roundToDouble neg num 1 = Double.fin neg num 0 →
        roundedToDecimals (if g.is_real_output then 3 else 0) (Double.fin neg num k) =
          Double.fin neg num k) := by
  refine ⟨seconds_to_string_raw_of_fits g _ hfit, ?_, ?_⟩
  · exact string_to_seconds_raw_formatFixed g _ neg num k
  · intro hk hexact
    subst hk
    cases g.is_real_output with
    | false =>
      simp [roundedToDecimals, scaled, roundHalfEven_one, hexact]
    | true =>
      have h3 : ¬ (0 : Int) ≤ 0 - ((3 : Nat) : Int) := by decide
      simp only [if_true, roundedToDecimals, scaled, pow_zero, roundHalfEven_one, h3, if_false]
      have h4 : (-(0 - ((3 : Nat) : Int))).toNat = 3 := by decide
      rw [h4, roundToDouble_scale neg num (10 ^ 3) (by decide), hexact]

theorem raw_round_trip_witness :
    formatFixed 3 (Double.fin true 3 1) = "-1.500".toList
    ∧ string_to_seconds_raw reals_globals (formatFixed 3 (Double.fin true 3 1)) =
      ([], some (roundedToDecimals 3 (Double.fin true 3 1)))
    ∧ roundedToDecimals 3 (Double.fin true 3 1) = Double.fin true 3 1 :=
  ⟨by decide, (raw_round_trip reals_globals true 3 1 (by decide)).2.1, by decide⟩

/-! ## Further properties -/

/-- In duration mode both callbacks of the `libc` format fail at once, with
their "cannot parse durations" and "cannot unparse durations" messages,
whatever the value is. -/
theorem libc_duration_unsupported (X : Externals) (g : Globals)
    (h : g.is_duration_mode = true) (v : CString) (s : Double) (n : Nat) :
    string_to_seconds_libc X g v = ([Event.err_libc_parse_durations], none)
    ∧ seconds_to_string_libc X g s n = ([Event.err_libc_unparse_durations], false, []) := by
  simp [string_to_seconds_libc, seconds_to_string_libc, h]

theorem libc_duration_unsupported_witness :
    string_to_seconds_libc rejecting_externals
        { is_duration_mode := true, is_debug := false, is_real_output := false }
        "Thu Jan  1 00:00:01 1970".toList =
      ([Event.err_libc_parse_durations], none)
    ∧ seconds_to_string_libc rejecting_externals
        { is_duration_mode := true, is_debug := false, is_real_output := false }
        (Double.fin false 1 0) 128 =
      ([Event.err_libc_unparse_durations], false, []) :=
  libc_duration_unsupported rejecting_externals
    { is_duration_mode := true, is_debug := false, is_real_output := false } rfl
    "Thu Jan  1 00:00:01 1970".toList (Double.fin false 1 0) 128

/-- The option `--help` prints the usage text and changes nothing else: the
run is the run without it, with the usage text printed first and the same exit
status. -/
theorem help_is_informational (X : Externals) (opts : List Opt) (values : List CString)
    (stdin : List (List Char)) :
    main X (Opt.h :: opts) values stdin =
      ((main X opts values stdin).1, Event.usage :: (main X opts values stdin).2) := by
  have h0 : initial_settings.rc = 0 := rfl
  have e : parse_options X (Opt.h :: opts) initial_settings =
      ((parse_options X opts initial_settings).1,
        Event.usage :: (parse_options X opts initial_settings).2) := by
    simp only [parse_options, h0, ne_eq, not_true_eq_false, if_false, option_step,
      List.singleton_append]
  by_cases hrc : (parse_options X opts initial_settings).1.rc = 0
  · obtain ⟨p, u, hp, hu, hm⟩ := main_of_options_ok X opts hrc
    obtain ⟨p2, u2, hp2, hu2, hm2⟩ := main_of_options_ok X (Opt.h :: opts)
      (by rw [e]; exact hrc)
    rw [e] at hp2 hu2
    simp only at hp2 hu2
    rw [hp] at hp2; rw [hu] at hu2
    cases hp2; cases hu2
    rw [hm, hm2, e]
    simp only [List.cons_append]
  · rw [main_of_options_failed X opts hrc,
      main_of_options_failed X (Opt.h :: opts) (by rw [e]; exact hrc), e]

/-- Without `--from` and `--to` the from format is `slurm` and the to format
is `raw`. -/
theorem default_formats (X : Externals) :
    format_for_id X (parse_options X [] initial_settings).1.from_format = some (format_slurm X)
    ∧ format_for_id X (parse_options X [] initial_settings).1.to_format = some format_raw := by
  constructor
  · show format_for_id X "slurm".toList = _
    rw [format_for_id_eq]; rfl
  · show format_for_id X "raw".toList = _
    rw [format_for_id_eq]; rfl

end Stime
